import Mathlib

/-!
# Verification of the access-code allocation and reconciliation engine

Shallow embedding of the core logic of the cloudformation-deployment-portal
repository: the DynamoDB-backed access-code pool (shared/access-code-utils.ts),
the stack deployer (deployStacks / assignAccessCodes), the stack deleter
(deleteStackByAccessCode / findStackByAccessCode / getDeletionStatus /
getAllDeletionStatus / deleteAllStacks), the reconciliation pass
(stack-sync/handler.ts: syncStackRecord / syncAllStacks) and the EventBridge
rule controller (shared/eventbridge-utils.ts: EventBridgeManager).

External effects (CloudFormation calls, DynamoDB write outcomes, EventBridge
calls, timestamps) are passed in as explicit parameters, so every definition
is an executable function of its inputs.
-/

namespace Portal

/-- Stack status vocabulary, exactly the union type of
StackRecord.status in shared/access-code-utils.ts. -/
inductive StackStatus where
  | AVAILABLE
  | CREATE_IN_PROGRESS
  | CREATE_COMPLETE
  | CREATE_FAILED
  | DELETE_IN_PROGRESS
  | DELETE_COMPLETE
  | DELETE_FAILED
  | ROLLBACK_IN_PROGRESS
  | ROLLBACK_COMPLETE
  | ROLLBACK_FAILED
  | UPDATE_IN_PROGRESS
  | UPDATE_COMPLETE
  | UPDATE_FAILED
  | UPDATE_ROLLBACK_IN_PROGRESS
  | UPDATE_ROLLBACK_COMPLETE
  | UPDATE_ROLLBACK_FAILED
  | REVIEW_IN_PROGRESS
deriving DecidableEq, Repr

open StackStatus

/-- One CloudFormation stack output entry (outputKey/outputValue/description),
as cached in StackRecord.outputs. -/
structure StackOutput where
  outputKey : String
  outputValue : String
  description : Option String
deriving DecidableEq, Repr

/-- The StackRecord interface of shared/access-code-utils.ts: one DynamoDB
item per access code ("guid" is the partition key holding the access code). -/
structure StackRecord where
  guid : String
  stackArn : Option String
  stackName : Option String
  stackId : Option String
  status : StackStatus
  createdAt : Option String
  updatedAt : String
  outputs : Option (List StackOutput)
  lastSyncAt : Option String
  syncError : Option String
deriving DecidableEq, Repr

/-- An update to pass to updateStackRecord. Mirrors the
Partial(StackRecord) argument: a field set to none is not mentioned,
some none is an explicitly-undefined field (DynamoDB REMOVE), and
some (some v) is a SET to v. The status field can only be SET. -/
structure UpdateSpec where
  stackArn : Option (Option String)
  stackName : Option (Option String)
  stackId : Option (Option String)
  status : Option StackStatus
  createdAt : Option (Option String)
  outputs : Option (Option (List StackOutput))
  lastSyncAt : Option (Option String)
  syncError : Option (Option String)
deriving DecidableEq, Repr

/-- The empty update: no field mentioned. -/
def UpdateSpec.empty : UpdateSpec :=
  ⟨none, none, none, none, none, none, none, none⟩

/-- Resolve one field of an update against the current value. -/
def ovr {α : Type} (cur : Option α) (upd : Option (Option α)) : Option α :=
  match upd with
  | none => cur
  | some v => v

/-- Apply an update to a record. updateStackRecord always also sets the
updatedAt timestamp (source: the "Always update the updatedAt timestamp"
block). -/
def applyUpdate (r : StackRecord) (u : UpdateSpec) (now : String) : StackRecord :=
  { guid := r.guid
    stackArn := ovr r.stackArn u.stackArn
    stackName := ovr r.stackName u.stackName
    stackId := ovr r.stackId u.stackId
    status := match u.status with | none => r.status | some s => s
    createdAt := ovr r.createdAt u.createdAt
    updatedAt := now
    outputs := ovr r.outputs u.outputs
    lastSyncAt := ovr r.lastSyncAt u.lastSyncAt
    syncError := ovr r.syncError u.syncError }

/-- The DynamoDB table, in scan order. -/
abbrev Store := List StackRecord

/-- getStackRecord: GetItem by access code. -/
def getStackRecord (store : Store) (accessCode : String) : Option StackRecord :=
  List.find? (fun r => r.guid == accessCode) store

/-- putStackRecord: PutItem overwrites the item with the same key, or
inserts it when the key is absent. -/
def putStackRecord (store : Store) (rec : StackRecord) : Store :=
  if List.any store (fun r => r.guid == rec.guid) then
    List.map (fun r => if r.guid == rec.guid then rec else r) store
  else
    store ++ [rec]

/-- updateStackRecord: UpdateItem keyed by access code (every caller in the
repository updates a key that is already present in the table). -/
def updateStackRecord (store : Store) (accessCode : String) (u : UpdateSpec)
    (now : String) : Store :=
  List.map (fun r => if r.guid == accessCode then applyUpdate r u now else r) store

/-- getAllStackRecords: a table scan returns the records in scan order. -/
def getAllStackRecords (store : Store) : List StackRecord := store

/-- getAccessCodePool: all access codes in the table, in scan order. -/
def getAccessCodePool (store : Store) : List String :=
  List.map (fun r => r.guid) (getAllStackRecords store)

/-- getAvailableAccessCodes: codes of the records with status AVAILABLE,
in scan order (no sorting in the source). -/
def getAvailableAccessCodes (store : Store) : List String :=
  List.map (fun r => r.guid)
    (List.filter (fun r => r.status == AVAILABLE) (getAllStackRecords store))

/-- getNonAvailableStackRecords: the records with status other than
AVAILABLE. -/
def getNonAvailableStackRecords (store : Store) : List StackRecord :=
  List.filter (fun r => !(r.status == AVAILABLE)) (getAllStackRecords store)

/-- initializeAccessCodePool: create an AVAILABLE record for every access
code that does not already have one. -/
def initAccessCodePool (store : Store) (accessCodes : List String)
    (now : String) : Store :=
  let existing := List.map (fun r => r.guid) store
  let newRecords :=
    List.map
      (fun accessCode =>
        ({ guid := accessCode, stackArn := none, stackName := none,
           stackId := none, status := AVAILABLE, createdAt := none,
           updatedAt := now, outputs := none, lastSyncAt := none,
           syncError := none } : StackRecord))
      (List.filter (fun accessCode => !(List.contains existing accessCode)) accessCodes)
  store ++ newRecords

/-! ## Allocation service (stack-deployer: assignAccessCodes / deployStacks) -/

/-- Errors raised by assignAccessCodes, by LambdaError code. -/
inductive AssignError where
  | countMismatch (selectedCount requestedCount : Nat)
  | invalidAccessCodes (codes : List String)
  | codesNotAvailable (codes : List String) (availableCount : Nat)
  | duplicateAccessCodes (codes : List String)
  | insufficientAccessCodes (requested available total : Nat)
deriving DecidableEq, Repr

/-- Index of the first occurrence of a code in a list (Array.indexOf). -/
def idxOf : List String → String → Nat
  | [], _ => 0
  | x :: xs, c => if x == c then 0 else idxOf xs c + 1

/-- Walk a list with its positions, keeping the entries whose position
differs from the position of their first occurrence in sel. -/
def dupEntriesAux (sel : List String) : List String → Nat → List String
  | [], _ => []
  | x :: xs, i =>
    if !(idxOf sel x == i) then x :: dupEntriesAux sel xs (i + 1)
    else dupEntriesAux sel xs (i + 1)

/-- The duplicate entries of a list, exactly as the source computes them:
filter((accessCode, index) selecting indexOf(accessCode) differing from
index). -/
def duplicateEntries (sel : List String) : List String :=
  dupEntriesAux sel sel 0

/-- The auto-assignment branch of assignAccessCodes: take the first count
codes of the available list (scan order), or fail when fewer are available. -/
def autoAssignAccessCodes (store : Store) (count : Nat) :
    Except AssignError (List String) :=
  let available := getAvailableAccessCodes store
  if available.length < count then
    .error (.insufficientAccessCodes count available.length
      (getAccessCodePool store).length)
  else
    .ok (available.take count)

/-- assignAccessCodes: validate an explicitly selected list, or auto-assign.
A selected list is only treated as explicit when it is non-empty
(the source guard is selectedAccessCodes and selectedAccessCodes.length > 0). -/
def assignAccessCodes (store : Store) (count : Nat)
    (selected : Option (List String)) : Except AssignError (List String) :=
  match selected with
  | some sel =>
    if 0 < sel.length then
      if !(sel.length == count) then
        .error (.countMismatch sel.length count)
      else if 0 < (List.filter
          (fun c => !(List.contains (getAccessCodePool store) c)) sel).length then
        .error (.invalidAccessCodes (List.filter
          (fun c => !(List.contains (getAccessCodePool store) c)) sel))
      else if 0 < (List.filter
          (fun c => !(List.contains (getAvailableAccessCodes store) c)) sel).length then
        .error (.codesNotAvailable (List.filter
          (fun c => !(List.contains (getAvailableAccessCodes store) c)) sel)
          (getAvailableAccessCodes store).length)
      else if 0 < (duplicateEntries sel).length then
        .error (.duplicateAccessCodes (duplicateEntries sel))
      else
        .ok sel
    else
      autoAssignAccessCodes store count
  | none => autoAssignAccessCodes store count

/-- One entry of deployStacks' deployedStacks result. -/
structure DeployedStack where
  stackName : String
  stackId : String
  uniqueId : String
  status : StackStatus
  createdAt : String
deriving DecidableEq, Repr

/-- The payload of the DEPLOYMENT_BATCH_FAILED error (partial results). -/
structure DeployAbort where
  successful : Nat
  failed : Nat
  total : Nat
deriving DecidableEq, Repr

/-- Result of the sequential deployment loop; the store reflects every write
made before a mid-batch abort, because DynamoDB writes are not rolled back
when the loop throws. -/
structure DeployLoopOut where
  store : Store
  deployedStacks : List DeployedStack
  successful : Nat
  failed : Nat
  aborted : Option DeployAbort
deriving Repr

/-- Stack name generation: prefix-accessCode-timestamp-(i+1). -/
def mkStackName (pfx code ts : String) (i : Nat) : String :=
  pfx ++ "-" ++ code ++ "-" ++ ts ++ "-" ++ toString (i + 1)

/-- The update written when a deployment fails: status back to AVAILABLE,
with stackArn/stackName/stackId/createdAt explicitly removed. -/
def deployFailureReset : UpdateSpec :=
  { UpdateSpec.empty with
      status := some AVAILABLE, stackArn := some none, stackName := some none,
      stackId := some none, createdAt := some none }

/-- The DynamoDB record written after a successful CreateStackCommand at
ordinal i: CREATE_IN_PROGRESS, linked to the returned StackId. -/
def deployRecord (code : String) (i : Nat) (stackIdOf : Nat → String)
    (pfx ts now : String) : StackRecord :=
  { guid := code, stackArn := some (stackIdOf i),
    stackName := some (mkStackName pfx code ts i),
    stackId := some (stackIdOf i), status := CREATE_IN_PROGRESS,
    createdAt := some now, updatedAt := now, outputs := none,
    lastSyncAt := none, syncError := none }

/-- The sequential deployment loop of deployStacks. createOk i tells whether
the CreateStackCommand for ordinal i succeeds, putOk i whether the
subsequent putStackRecord succeeds, updOk i whether the failure-path
updateStackRecord succeeds; stackIdOf i is the StackId CloudFormation
returns. A put or update failure is caught and only logged. A batch aborts
with DEPLOYMENT_BATCH_FAILED as soon as failedDeployments exceeds
stackCount / 2. -/
def deployLoop (stackCount : Nat) (createOk putOk updOk : Nat → Bool)
    (stackIdOf : Nat → String) (pfx ts now : String) :
    List String → Nat → Nat → Nat → Store → List DeployedStack → DeployLoopOut
  | [], _i, succ, failed, store, acc => ⟨store, acc.reverse, succ, failed, none⟩
  | code :: rest, i, succ, failed, store, acc =>
    let stackName := mkStackName pfx code ts i
    if createOk i then
      let store' :=
        if putOk i then putStackRecord store (deployRecord code i stackIdOf pfx ts now)
        else store
      let entry : DeployedStack := ⟨stackName, stackIdOf i, code, CREATE_IN_PROGRESS, now⟩
      deployLoop stackCount createOk putOk updOk stackIdOf pfx ts now
        rest (i + 1) (succ + 1) failed store' (entry :: acc)
    else
      let entry : DeployedStack := ⟨stackName, "", code, CREATE_FAILED, now⟩
      let store' :=
        if updOk i then updateStackRecord store code deployFailureReset now
        else store
      if stackCount < 2 * (failed + 1) then
        ⟨store', (entry :: acc).reverse, succ, failed + 1,
          some ⟨succ, failed + 1, stackCount⟩⟩
      else
        deployLoop stackCount createOk putOk updOk stackIdOf pfx ts now
          rest (i + 1) succ (failed + 1) store' (entry :: acc)

/-- Errors raised by deployStacks, by LambdaError code. -/
inductive DeployError where
  | invalidStackCountRange (provided : Nat)
  | stackCountExceedsPool (provided maximum : Nat)
  | assignFailed (e : AssignError)
  | deploymentBatchFailed (details : DeployAbort)
deriving DecidableEq, Repr

/-- deployStacks: validate the count, assign access codes, then run the
sequential deployment loop. Returns the store (reflecting all writes made,
even on a mid-batch abort) together with the response or error. -/
def deployStacks (store : Store) (stackCount : Nat)
    (selected : Option (List String)) (maxPoolSize : Nat)
    (createOk putOk updOk : Nat → Bool) (stackIdOf : Nat → String)
    (pfx ts now : String) :
    Store × Except DeployError (List DeployedStack × List String) :=
  if stackCount == 0 then
    (store, .error (.invalidStackCountRange stackCount))
  else if maxPoolSize < stackCount then
    (store, .error (.stackCountExceedsPool stackCount maxPoolSize))
  else
    match assignAccessCodes store stackCount selected with
    | .error e => (store, .error (.assignFailed e))
    | .ok assigned =>
      let out := deployLoop stackCount createOk putOk updOk stackIdOf pfx ts now
        assigned 0 0 0 store []
      match out.aborted with
      | some f => (out.store, .error (.deploymentBatchFailed f))
      | none => (out.store, .ok (out.deployedStacks, assigned))

/-! ## Deletion service (stack-deleter) -/

/-- The stack summary returned by findStackByAccessCode / getAllActiveStacks. -/
structure StackInfo where
  stackName : String
  stackId : String
  uniqueId : String
  status : StackStatus
  createdAt : String
deriving DecidableEq, Repr

/-- Errors raised by the deleter, by LambdaError code. -/
inductive DeleteError where
  | invalidAccessCode (accessCode : String)
  | stackNotFound (accessCode : String)
  | operationInProgress (stackName : String) (status : StackStatus)
  | cloudFormationError
deriving DecidableEq, Repr

/-- validateAccessCode: the format check result is an input (the UUID regex
is outside the model); the code must also have a record in the table. -/
def validateAccessCode (store : Store) (accessCode : String)
    (formatOk : Bool) : Bool :=
  formatOk && (getStackRecord store accessCode).isSome

/-- findStackByAccessCode: invalid codes are a 400 error; a missing record,
an AVAILABLE record, or a record without stackArn yields no active stack. -/
def findStackByAccessCode (store : Store) (accessCode : String)
    (formatOk : Bool) : Except DeleteError (Option StackInfo) :=
  if !(validateAccessCode store accessCode formatOk) then
    .error (.invalidAccessCode accessCode)
  else
    match getStackRecord store accessCode with
    | none => .ok none
    | some r =>
      if r.status == AVAILABLE || !r.stackArn.isSome then
        .ok none
      else
        .ok (some ⟨r.stackName.getD "", r.stackId.getD "", r.guid, r.status,
          r.createdAt.getD ""⟩)

/-- The in-progress states that block deletion (DELETE_IN_PROGRESS is
handled separately before this list is consulted). -/
def inProgressStates : List StackStatus :=
  [CREATE_IN_PROGRESS, ROLLBACK_IN_PROGRESS, UPDATE_IN_PROGRESS,
   UPDATE_ROLLBACK_IN_PROGRESS, REVIEW_IN_PROGRESS]

/-- The response of deleteStackByAccessCode. -/
structure StackDeletionResponse where
  success : Bool
  deletionStatus : StackStatus
  message : String
deriving DecidableEq, Repr

/-- The update written after DeleteStackCommand succeeds. -/
def deleteInProgressUpdate : UpdateSpec :=
  { UpdateSpec.empty with status := some DELETE_IN_PROGRESS }

/-- deleteStackByAccessCode. deleteOk tells whether the external
DeleteStackCommand succeeds; updateOk whether the follow-up store write
succeeds (its failure is caught and only logged). -/
def deleteStackByAccessCode (store : Store) (accessCode : String)
    (formatOk deleteOk updateOk : Bool) (now : String) :
    Store × Except DeleteError StackDeletionResponse :=
  match findStackByAccessCode store accessCode formatOk with
  | .error e => (store, .error e)
  | .ok none => (store, .error (.stackNotFound accessCode))
  | .ok (some stack) =>
    if stack.status == DELETE_IN_PROGRESS then
      (store, .ok
        { success := false, deletionStatus := DELETE_IN_PROGRESS,
          message := "Stack " ++ stack.stackName ++
            " is already being deleted. Please wait for the current deletion to complete." })
    else if List.contains inProgressStates stack.status then
      (store, .error (.operationInProgress stack.stackName stack.status))
    else if deleteOk then
      ((if updateOk then
          updateStackRecord store accessCode deleteInProgressUpdate now
        else store), .ok
        { success := true, deletionStatus := DELETE_IN_PROGRESS,
          message := "Stack deletion initiated successfully. Stack " ++
            stack.stackName ++ " is now being deleted." })
    else
      (store, .error .cloudFormationError)

/-- getAllActiveStacks: the non-AVAILABLE records that have a stackArn. -/
def getAllActiveStacks (store : Store) : List StackInfo :=
  List.map
    (fun r => ⟨r.stackName.getD "", r.stackId.getD "", r.guid, r.status,
      r.createdAt.getD ""⟩)
    (List.filter (fun r => !(r.status == AVAILABLE) && r.stackArn.isSome)
      (getAllStackRecords store))

/-- Per-stack classification of deleteAllStacks. -/
inductive BulkOutcome where
  | ALREADY_DELETING
  | OPERATION_IN_PROGRESS
  | DELETE_INITIATED
  | DELETE_FAILED
deriving DecidableEq, Repr

/-- The per-stack fan-out of deleteAllStacks. Every stack is classified
independently; one stack's failure never stops the others. -/
def deleteAllLoop (deleteOkOf updateOkOf : String → Bool) (now : String) :
    List StackInfo → Store → List (String × BulkOutcome) →
    Store × List (String × BulkOutcome)
  | [], store, acc => (store, acc.reverse)
  | stack :: rest, store, acc =>
    if stack.status == DELETE_IN_PROGRESS then
      deleteAllLoop deleteOkOf updateOkOf now rest store
        ((stack.uniqueId, .ALREADY_DELETING) :: acc)
    else if List.contains inProgressStates stack.status then
      deleteAllLoop deleteOkOf updateOkOf now rest store
        ((stack.uniqueId, .OPERATION_IN_PROGRESS) :: acc)
    else if deleteOkOf stack.uniqueId then
      let store' :=
        if updateOkOf stack.uniqueId then
          updateStackRecord store stack.uniqueId deleteInProgressUpdate now
        else store
      deleteAllLoop deleteOkOf updateOkOf now rest store'
        ((stack.uniqueId, .DELETE_INITIATED) :: acc)
    else
      deleteAllLoop deleteOkOf updateOkOf now rest store
        ((stack.uniqueId, .DELETE_FAILED) :: acc)

/-- deleteAllStacks: classify and delete every active stack. -/
def deleteAllStacks (store : Store) (deleteOkOf updateOkOf : String → Bool)
    (now : String) : Store × List (String × BulkOutcome) :=
  deleteAllLoop deleteOkOf updateOkOf now (getAllActiveStacks store) store []

/-! ## Deletion status projections -/

/-- Printable status names (used inside progress messages). -/
def statusName : StackStatus → String
  | AVAILABLE => "AVAILABLE"
  | CREATE_IN_PROGRESS => "CREATE_IN_PROGRESS"
  | CREATE_COMPLETE => "CREATE_COMPLETE"
  | CREATE_FAILED => "CREATE_FAILED"
  | DELETE_IN_PROGRESS => "DELETE_IN_PROGRESS"
  | DELETE_COMPLETE => "DELETE_COMPLETE"
  | DELETE_FAILED => "DELETE_FAILED"
  | ROLLBACK_IN_PROGRESS => "ROLLBACK_IN_PROGRESS"
  | ROLLBACK_COMPLETE => "ROLLBACK_COMPLETE"
  | ROLLBACK_FAILED => "ROLLBACK_FAILED"
  | UPDATE_IN_PROGRESS => "UPDATE_IN_PROGRESS"
  | UPDATE_COMPLETE => "UPDATE_COMPLETE"
  | UPDATE_FAILED => "UPDATE_FAILED"
  | UPDATE_ROLLBACK_IN_PROGRESS => "UPDATE_ROLLBACK_IN_PROGRESS"
  | UPDATE_ROLLBACK_COMPLETE => "UPDATE_ROLLBACK_COMPLETE"
  | UPDATE_ROLLBACK_FAILED => "UPDATE_ROLLBACK_FAILED"
  | REVIEW_IN_PROGRESS => "REVIEW_IN_PROGRESS"

/-- The per-status (progress message, isComplete) table of the single-code
getDeletionStatus switch. -/
def deletionProgressOne (status : StackStatus) : String × Bool :=
  match status with
  | DELETE_IN_PROGRESS =>
    ("Stack deletion is in progress. Resources are being removed.", false)
  | DELETE_COMPLETE =>
    ("Stack has been successfully deleted and Access Code is now available for reuse.", true)
  | DELETE_FAILED =>
    ("Stack deletion failed. Manual intervention may be required. The stack still exists and the Access Code remains linked.", true)
  | CREATE_IN_PROGRESS =>
    ("Stack is still being created. Deletion cannot proceed until creation completes.", false)
  | CREATE_COMPLETE | UPDATE_COMPLETE =>
    ("Stack is active and ready for deletion if needed.", false)
  | CREATE_FAILED | ROLLBACK_COMPLETE | ROLLBACK_FAILED | UPDATE_FAILED
  | UPDATE_ROLLBACK_COMPLETE | UPDATE_ROLLBACK_FAILED =>
    ("Stack is in error state (" ++ statusName status ++
      "). The stack still exists and may require manual cleanup.", false)
  | ROLLBACK_IN_PROGRESS | UPDATE_IN_PROGRESS | UPDATE_ROLLBACK_IN_PROGRESS =>
    ("Stack operation is in progress (" ++ statusName status ++
      "). Please wait for the operation to complete before attempting deletion.", false)
  | REVIEW_IN_PROGRESS =>
    ("Stack is under review. Please complete the review process before attempting deletion.", false)
  | AVAILABLE =>
    ("Stack is in " ++ statusName status ++
      " state. Current status may require manual review.", false)

/-- The per-status (progress message, isComplete) table of the bulk
getAllDeletionStatus switch (its messages differ from the single-code
table). -/
def deletionProgressAll (status : StackStatus) : String × Bool :=
  match status with
  | DELETE_IN_PROGRESS =>
    ("Stack deletion is in progress. Resources are being removed.", false)
  | DELETE_COMPLETE =>
    ("Stack has been successfully deleted and Access Code is now available for reuse.", true)
  | DELETE_FAILED =>
    ("Stack deletion failed. Manual intervention may be required.", true)
  | CREATE_IN_PROGRESS =>
    ("Stack is still being created.", false)
  | CREATE_COMPLETE | UPDATE_COMPLETE =>
    ("Stack is active.", false)
  | CREATE_FAILED | ROLLBACK_COMPLETE | ROLLBACK_FAILED | UPDATE_FAILED
  | UPDATE_ROLLBACK_COMPLETE | UPDATE_ROLLBACK_FAILED =>
    ("Stack is in error state (" ++ statusName status ++ ").", false)
  | ROLLBACK_IN_PROGRESS | UPDATE_IN_PROGRESS | UPDATE_ROLLBACK_IN_PROGRESS =>
    ("Stack operation is in progress (" ++ statusName status ++ ").", false)
  | REVIEW_IN_PROGRESS =>
    ("Stack is under review.", false)
  | AVAILABLE =>
    ("Stack is in " ++ statusName status ++ " state.", false)

/-- The response of getDeletionStatus. -/
structure DeletionStatusResponse where
  status : StackStatus
  progress : String
  isComplete : Bool
deriving DecidableEq, Repr

/-- getDeletionStatus: when no active stack is found the code was deleted
(or never linked) and the result is DELETE_COMPLETE with isComplete true;
otherwise project the stored status through the progress table. -/
def getDeletionStatus (store : Store) (accessCode : String)
    (formatOk : Bool) : Except DeleteError DeletionStatusResponse :=
  match findStackByAccessCode store accessCode formatOk with
  | .error e => .error e
  | .ok none =>
    .ok ⟨DELETE_COMPLETE,
      "Stack has been successfully deleted and Access Code is now available for reuse.",
      true⟩
  | .ok (some stack) =>
    .ok ⟨stack.status, (deletionProgressOne stack.status).1,
      (deletionProgressOne stack.status).2⟩

/-- getAllDeletionStatus: one projected entry per active stack. -/
def getAllDeletionStatus (store : Store) :
    List (String × DeletionStatusResponse) :=
  List.map
    (fun stack =>
      (stack.uniqueId,
        ⟨stack.status, (deletionProgressAll stack.status).1,
          (deletionProgressAll stack.status).2⟩))
    (getAllActiveStacks store)

/-! ## Reconciliation loop (stack-sync/handler.ts) -/

/-- Outcome of a DescribeStacksCommand for a record's stackArn:
the stack does not exist (ValidationError saying does not exist), the stack
was found (with its status, name, id, creation time and raw outputs), or
the call failed with some other error. -/
inductive DescribeResult where
  | notFound
  | found (status : StackStatus) (stackName stackId : Option String)
      (creationTime : Option String)
      (outputs : List (Option String × Option String × Option String))
  | describeFailed (message : String)
deriving DecidableEq, Repr

/-- convertCloudFormationOutputs: keep only entries with both a key and a
value. -/
def convertCloudFormationOutputs
    (cfOutputs : List (Option String × Option String × Option String)) :
    List StackOutput :=
  List.map (fun o => ⟨o.1.getD "", o.2.1.getD "", o.2.2⟩)
    (List.filter (fun o => o.1.isSome && o.2.1.isSome) cfOutputs)

/-- The reset written when the stack no longer exists or reached
DELETE_COMPLETE: status AVAILABLE with every linked field removed, plus the
base bookkeeping (lastSyncAt set, syncError removed). -/
def syncResetUpdates (now : String) : UpdateSpec :=
  { stackArn := some none, stackName := some none, stackId := some none,
    status := some AVAILABLE, createdAt := some none, outputs := some none,
    lastSyncAt := some (some now), syncError := some none }

/-- The lastSyncAt-only update written when a sync found no changes. -/
def lastSyncOnlyUpdate (now : String) : UpdateSpec :=
  { UpdateSpec.empty with lastSyncAt := some (some now) }

/-- The field diff of syncStackRecord for a live, non-DELETE_COMPLETE stack:
one update spec carrying the base bookkeeping (lastSyncAt set, syncError
removed) plus exactly the changed fields, and the hasChanges flag. Status,
stack name and stack id are written when they differ from the stored ones,
createdAt is filled in when missing and the stack has a creation time, and
outputs are refreshed only in CREATE_COMPLETE or UPDATE_COMPLETE and only
when they differ from the cached ones. -/
def syncDiffUpdates (record : StackRecord) (extStatus : StackStatus)
    (extName extId extCtime : Option String)
    (extOutputs : List (Option String × Option String × Option String))
    (now : String) : UpdateSpec × Bool :=
  let statusChanged := !(record.status == extStatus)
  let nameChanged := !(record.stackName == extName)
  let idChanged := !(record.stackId == extId)
  let createdChanged := record.createdAt.isNone && extCtime.isSome
  let newOutputs := convertCloudFormationOutputs extOutputs
  let outputsChanged :=
    (extStatus == CREATE_COMPLETE || extStatus == UPDATE_COMPLETE) &&
      !(record.outputs.getD [] == newOutputs)
  let u : UpdateSpec :=
    { stackArn := none
      stackName := if nameChanged then some extName else none
      stackId := if idChanged then some extId else none
      status := if statusChanged then some extStatus else none
      createdAt := if createdChanged then some extCtime else none
      outputs := if outputsChanged then some (some newOutputs) else none
      lastSyncAt := some (some now)
      syncError := some none }
  (u, statusChanged || nameChanged || idChanged || createdChanged || outputsChanged)

/-- syncStackRecord: reconcile one record against a describe result.
Returns the record as stored afterwards and the success flag. Records with
no stackArn are skipped without a write. On a describe failure the record
gets syncError and lastSyncAt and the sync counts as failed. Otherwise the
update starts from (lastSyncAt set, syncError removed), a reset is applied
when the stack is gone or DELETE_COMPLETE, a field diff is applied when
something changed, and when nothing changed only lastSyncAt is written. -/
def syncStackRecord (record : StackRecord) (d : DescribeResult)
    (now : String) : StackRecord × Bool :=
  match record.stackArn with
  | none => (record, true)
  | some _ =>
    match d with
    | .describeFailed msg =>
      let u : UpdateSpec :=
        { UpdateSpec.empty with
            syncError := some (some msg), lastSyncAt := some (some now) }
      (applyUpdate record u now, false)
    | .notFound =>
      if !(record.status == AVAILABLE) then
        (applyUpdate record (syncResetUpdates now) now, true)
      else
        (applyUpdate record (lastSyncOnlyUpdate now) now, true)
    | .found extStatus extName extId extCtime extOutputs =>
      if extStatus == DELETE_COMPLETE then
        (applyUpdate record (syncResetUpdates now) now, true)
      else
        let p := syncDiffUpdates record extStatus extName extId extCtime
          extOutputs now
        if p.2 then (applyUpdate record p.1 now, true)
        else (applyUpdate record (lastSyncOnlyUpdate now) now, true)

/-- The summary returned by syncAllStacks. -/
structure SyncResult where
  totalProcessed : Nat
  successfulSyncs : Nat
  failedSyncs : Nat
  errors : List (String × String)
deriving DecidableEq, Repr

/-- The store after one reconciliation pass: every non-AVAILABLE record is
replaced by its sync result (the source iterates over the scan snapshot and
writes each record under its own key). -/
def syncStorePass (store : Store) (view : String → DescribeResult)
    (now : String) : Store :=
  List.map
    (fun r => if r.status == AVAILABLE then r
              else (syncStackRecord r (view r.guid) now).1)
    store

/-- The error message recorded for a failed sync. -/
def syncFailureMessage (d : DescribeResult) : String :=
  match d with
  | .describeFailed m => m
  | _ => "Unknown error"

/-- The SyncResult of one pass over the given store. -/
def syncResultOf (store : Store) (view : String → DescribeResult)
    (now : String) : SyncResult :=
  let nonAvail := getNonAvailableStackRecords store
  { totalProcessed := nonAvail.length
    successfulSyncs :=
      (List.filter (fun r => (syncStackRecord r (view r.guid) now).2) nonAvail).length
    failedSyncs :=
      (List.filter (fun r => !(syncStackRecord r (view r.guid) now).2) nonAvail).length
    errors :=
      List.map (fun r => (r.guid, syncFailureMessage (view r.guid)))
        (List.filter (fun r => !(syncStackRecord r (view r.guid) now).2) nonAvail) }

/-! ## Trigger controller (EventBridgeManager) -/

/-- EventBridge rule state. -/
inductive RuleState where
  | ENABLED
  | DISABLED
deriving DecidableEq, Repr

/-- Outcomes of the EventBridge calls made by ensureRuleDisabled:
whether DescribeRuleCommand and DisableRuleCommand succeed. -/
structure TriggerEnv where
  describeRuleOk : Bool
  disableRuleOk : Bool
deriving DecidableEq, Repr

/-- ensureRuleDisabled: read the current rule state; when it is not
DISABLED, send DisableRuleCommand. Every error is caught and logged, never
re-thrown. Returns the resulting rule state and whether DisableRuleCommand
was sent. -/
def ensureRuleDisabled (rule : RuleState) (env : TriggerEnv) :
    RuleState × Bool :=
  if !env.describeRuleOk then (rule, false)
  else if rule == RuleState.DISABLED then (rule, false)
  else if env.disableRuleOk then (RuleState.DISABLED, true)
  else (rule, true)

/-- The full outcome of one syncAllStacks invocation. -/
structure SyncPassOutput where
  store : Store
  result : SyncResult
  rule : RuleState
  disableInvoked : Bool
deriving Repr

/-- syncAllStacks: scan the non-AVAILABLE records; when there are none the
pass is a no-op apart from the trigger check; otherwise reconcile each
record. Afterwards validateAllStacksDeletionComplete re-fetches the
non-AVAILABLE count (refetchOk false models its catch branch, which
assumes stacks still exist) and the rule is disabled only when the
re-fetched count is zero; rule-management failures never fail the pass. -/
def syncAllStacks (store : Store) (view : String → DescribeResult)
    (now : String) (rule : RuleState) (env : TriggerEnv)
    (refetchOk : Bool) : SyncPassOutput :=
  if (getNonAvailableStackRecords store).length == 0 then
    if refetchOk && (getNonAvailableStackRecords store).length == 0 then
      ⟨store, ⟨0, 0, 0, []⟩, (ensureRuleDisabled rule env).1,
        (ensureRuleDisabled rule env).2⟩
    else
      ⟨store, ⟨0, 0, 0, []⟩, rule, false⟩
  else
    if refetchOk &&
        (getNonAvailableStackRecords (syncStorePass store view now)).length == 0 then
      ⟨syncStorePass store view now, syncResultOf store view now,
        (ensureRuleDisabled rule env).1, (ensureRuleDisabled rule env).2⟩
    else
      ⟨syncStorePass store view now, syncResultOf store view now, rule, false⟩

/-! ## The operation state machine

One public operation per constructor, with the outcomes of all external
calls (CloudFormation, DynamoDB write results, timestamps) carried as
oracle parameters, so that a sequence of operations is a pure function of
the initial store. -/

/-- One public operation against the pool. -/
inductive Op where
  | deploy (stackCount : Nat) (selected : Option (List String))
      (maxPoolSize : Nat) (createOk putOk updOk : Nat → Bool)
      (stackIdOf : Nat → String) (pfx ts now : String)
  | deleteOne (accessCode : String) (formatOk deleteOk updateOk : Bool)
      (now : String)
  | deleteAll (deleteOkOf updateOkOf : String → Bool) (now : String)
  | reconcile (view : String → DescribeResult) (now : String)
      (rule : RuleState) (env : TriggerEnv) (refetchOk : Bool)

/-- Effect of one operation on the store. -/
def execOp (op : Op) (store : Store) : Store :=
  match op with
  | .deploy stackCount selected maxPoolSize createOk putOk updOk stackIdOf pfx ts now =>
    (deployStacks store stackCount selected maxPoolSize createOk putOk updOk
      stackIdOf pfx ts now).1
  | .deleteOne accessCode formatOk deleteOk updateOk now =>
    (deleteStackByAccessCode store accessCode formatOk deleteOk updateOk now).1
  | .deleteAll deleteOkOf updateOkOf now =>
    (deleteAllStacks store deleteOkOf updateOkOf now).1
  | .reconcile view now rule env refetchOk =>
    (syncAllStacks store view now rule env refetchOk).store

/-- Effect of a sequence of operations (first operation first). -/
def execOps (ops : List Op) (store : Store) : Store :=
  match ops with
  | [] => store
  | op :: rest => execOps rest (execOp op store)

/-- A describe result is status-sane when it never reports the local-only
AVAILABLE pseudo-status (CloudFormation has no such stack status). -/
def describeStatusOk : DescribeResult → Prop
  | .found s _ _ _ _ => s ≠ AVAILABLE
  | _ => True

/-- Sanity of an operation's oracles: a reconcile pass only ever observes
genuine CloudFormation statuses. -/
def OpOk : Op → Prop
  | .reconcile view _ _ _ _ => ∀ g, describeStatusOk (view g)
  | _ => True

/-- Number of records with status AVAILABLE (totalAvailable counts the
complement in the source, access-code-manager handler). -/
def countAvailable (store : Store) : Nat :=
  (List.filter (fun r => r.status == AVAILABLE) store).length

/-- Number of linked records: status not AVAILABLE and stackArn present,
exactly the isLinked projection of stackRecordToAccessCodeStatus. -/
def countLinked (store : Store) : Nat :=
  (List.filter (fun r => !(r.status == AVAILABLE) && r.stackArn.isSome) store).length

/-- Store well-formedness: the guid column is exactly the pool of access
codes (so the membership and length of the pool are fixed), the pool has no
duplicate codes, and every non-AVAILABLE record is linked to a stack ARN. -/
structure StoreInv (pool : List String) (store : Store) : Prop where
  guids : getAccessCodePool store = pool
  nodup : pool.Nodup
  consistent : ∀ r ∈ store, r.status = AVAILABLE ∨ r.stackArn.isSome = true

/-- The deployedStacks entries the deployment loop produces, index by
index: a CREATE_IN_PROGRESS entry with the returned StackId on create
success, a CREATE_FAILED entry with an empty stackId on create failure. -/
def deployEntries (cOk : Nat → Bool) (sidOf : Nat → String)
    (pfx ts now : String) : List String → Nat → List DeployedStack
  | [], _ => []
  | c :: rest, i =>
    (if cOk i then
      (⟨mkStackName pfx c ts i, sidOf i, c, CREATE_IN_PROGRESS, now⟩ : DeployedStack)
     else ⟨mkStackName pfx c ts i, "", c, CREATE_FAILED, now⟩) ::
      deployEntries cOk sidOf pfx ts now rest (i + 1)

/-- Number of indices with a failing external create among len ordinals
starting at i. -/
def failCount (cOk : Nat → Bool) : Nat → Nat → Nat
  | _, 0 => 0
  | i, len + 1 => (if cOk i then 0 else 1) + failCount cOk (i + 1) len

/-! ## Basic lemmas about the store operations -/

theorem applyUpdate_guid (r : StackRecord) (u : UpdateSpec) (now : String) :
    (applyUpdate r u now).guid = r.guid := rfl

theorem guid_of_getStackRecord {s : Store} {g : String} {r : StackRecord}
    (h : getStackRecord s g = some r) : r.guid = g := by
  have := List.find?_some h
  simpa using this

theorem mem_of_getStackRecord {s : Store} {g : String} {r : StackRecord}
    (h : getStackRecord s g = some r) : r ∈ s :=
  List.mem_of_find?_eq_some h

theorem getStackRecord_map (f : StackRecord → StackRecord)
    (hf : ∀ r, (f r).guid = r.guid) (s : Store) (g : String) :
    getStackRecord (List.map f s) g = Option.map f (getStackRecord s g) := by
  unfold getStackRecord
  rw [List.find?_map]
  have hp : ((fun r : StackRecord => r.guid == g) ∘ f) =
      (fun r : StackRecord => r.guid == g) := by
    funext r
    simp [Function.comp, hf]
  rw [hp]

theorem putReplace_guid (rec r : StackRecord) :
    ((if r.guid == rec.guid then rec else r)).guid = r.guid := by
  by_cases h : (r.guid == rec.guid) = true
  · have hg : r.guid = rec.guid := by simpa using h
    simp [h, hg]
  · simp [h]

theorem getStackRecord_update (s : Store) (code g : String) (u : UpdateSpec)
    (now : String) :
    getStackRecord (updateStackRecord s code u now) g =
      Option.map (fun r => if r.guid == code then applyUpdate r u now else r)
        (getStackRecord s g) := by
  unfold updateStackRecord
  apply getStackRecord_map
  intro r
  by_cases h : (r.guid == code) = true
  · simp [h, applyUpdate_guid]
  · simp [h]

theorem getStackRecord_update_self (s : Store) (g : String) (u : UpdateSpec)
    (now : String) :
    getStackRecord (updateStackRecord s g u now) g =
      Option.map (fun r => applyUpdate r u now) (getStackRecord s g) := by
  rw [getStackRecord_update]
  cases h : getStackRecord s g with
  | none => rfl
  | some r =>
    have hg : r.guid = g := guid_of_getStackRecord h
    simp [hg]

theorem getStackRecord_update_ne (s : Store) (code g : String) (u : UpdateSpec)
    (now : String) (h : code ≠ g) :
    getStackRecord (updateStackRecord s code u now) g = getStackRecord s g := by
  rw [getStackRecord_update]
  cases hr : getStackRecord s g with
  | none => rfl
  | some r =>
    have hg : r.guid = g := guid_of_getStackRecord hr
    simp [hg, h.symm]

theorem getStackRecord_put_self (s : Store) (rec : StackRecord) :
    getStackRecord (putStackRecord s rec) rec.guid = some rec := by
  unfold putStackRecord
  by_cases h : List.any s (fun r => r.guid == rec.guid) = true
  · rw [if_pos h, getStackRecord_map _ (putReplace_guid rec)]
    rcases List.any_eq_true.mp h with ⟨r, hrmem, hrg⟩
    cases hfind : getStackRecord s rec.guid with
    | none =>
      exfalso
      exact List.find?_eq_none.mp hfind r hrmem hrg
    | some r0 =>
      have hg : r0.guid = rec.guid := guid_of_getStackRecord hfind
      simp [hg]
  · rw [if_neg h]
    unfold getStackRecord
    rw [List.find?_append]
    have hnone : List.find? (fun r => r.guid == rec.guid) s = none := by
      rw [List.find?_eq_none]
      intro x hx hxg
      exact h (List.any_eq_true.mpr ⟨x, hx, hxg⟩)
    simp [hnone, getStackRecord]

theorem getStackRecord_put_ne (s : Store) (rec : StackRecord) (g : String)
    (h : rec.guid ≠ g) :
    getStackRecord (putStackRecord s rec) g = getStackRecord s g := by
  unfold putStackRecord
  by_cases hany : List.any s (fun r => r.guid == rec.guid) = true
  · rw [if_pos hany, getStackRecord_map _ (putReplace_guid rec)]
    cases hfind : getStackRecord s g with
    | none => rfl
    | some r =>
      have hg : r.guid = g := guid_of_getStackRecord hfind
      have hne : (r.guid == rec.guid) = false := by
        rw [hg]
        exact beq_false_of_ne fun hh => h hh.symm
      have hcond : ¬ ((r.guid == rec.guid) = true) := by simp [hne]
      simp [Option.map_some, if_neg hcond]
      intro hh
      exact absurd hh (by simpa using hne)
  · rw [if_neg hany]
    unfold getStackRecord
    rw [List.find?_append]
    have hne : (rec.guid == g) = false := beq_false_of_ne h
    have hrec : List.find? (fun r => r.guid == g) [rec] = none := by
      simp [List.find?, hne]
    rw [hrec]
    cases List.find? (fun r => r.guid == g) s <;> rfl

theorem pool_update (s : Store) (code : String) (u : UpdateSpec)
    (now : String) :
    getAccessCodePool (updateStackRecord s code u now) = getAccessCodePool s := by
  unfold getAccessCodePool getAllStackRecords updateStackRecord
  rw [List.map_map]
  apply List.map_congr_left
  intro r _
  by_cases h : (r.guid == code) = true
  · simp [Function.comp, h, applyUpdate_guid]
  · simp [Function.comp, h]

theorem pool_put_of_mem (s : Store) (rec : StackRecord)
    (h : rec.guid ∈ getAccessCodePool s) :
    getAccessCodePool (putStackRecord s rec) = getAccessCodePool s := by
  unfold putStackRecord
  have hany : List.any s (fun r => r.guid == rec.guid) = true := by
    rw [List.any_eq_true]
    rcases List.mem_map.mp h with ⟨r, hrmem, hrg⟩
    exact ⟨r, hrmem, by simp [hrg]⟩
  rw [if_pos hany]
  unfold getAccessCodePool getAllStackRecords
  rw [List.map_map]
  apply List.map_congr_left
  intro r _
  simp only [Function.comp]
  exact putReplace_guid rec r

theorem mem_update {s : Store} {code : String} {u : UpdateSpec} {now : String}
    {x : StackRecord} (h : x ∈ updateStackRecord s code u now) :
    ∃ r ∈ s, x = if r.guid == code then applyUpdate r u now else r := by
  rcases List.mem_map.mp h with ⟨r, hr, hx⟩
  exact ⟨r, hr, hx.symm⟩

theorem mem_put_of_mem {s : Store} {rec : StackRecord} {x : StackRecord}
    (h : x ∈ putStackRecord s rec) :
    x = rec ∨ x ∈ s := by
  unfold putStackRecord at h
  by_cases hany : List.any s (fun r => r.guid == rec.guid) = true
  · simp only [hany, if_true] at h
    rcases List.mem_map.mp h with ⟨r, hr, hx⟩
    by_cases hg : (r.guid == rec.guid) = true
    · simp [hg] at hx
      exact Or.inl hx.symm
    · simp [hg] at hx
      exact Or.inr (hx ▸ hr)
  · simp only [hany, if_false] at h
    rcases List.mem_append.mp h with h1 | h2
    · exact Or.inr h1
    · simp at h2
      exact Or.inl h2

/-! ## Conservation of the pool -/

theorem conservation_of_consistent (s : Store)
    (h : ∀ r ∈ s, r.status = AVAILABLE ∨ r.stackArn.isSome = true) :
    countAvailable s + countLinked s = s.length := by
  induction s with
  | nil => rfl
  | cons r rest ih =>
    have hr := h r (List.mem_cons_self r rest)
    have ihr := ih fun x hx => h x (List.mem_cons_of_mem r hx)
    by_cases ha : r.status = AVAILABLE
    · have h1 : (r.status == AVAILABLE) = true := by simp [ha]
      unfold countAvailable countLinked at ihr ⊢
      simp only [List.filter_cons, h1, Bool.not_true, Bool.false_and,
        Bool.false_eq_true, if_true, if_false, List.length_cons]
      omega
    · have h1 : (r.status == AVAILABLE) = false := by
        simpa using ha
      have h2 : r.stackArn.isSome = true := hr.resolve_left ha
      unfold countAvailable countLinked at ihr ⊢
      simp only [List.filter_cons, h1, Bool.not_false, Bool.true_and, h2,
        Bool.false_eq_true, if_false, if_true, List.length_cons]
      omega

/-! ## Field lemmas for the specific update specs -/

theorem applyUpdate_deployFailureReset (r : StackRecord) (now : String) :
    applyUpdate r deployFailureReset now =
      { guid := r.guid, stackArn := none, stackName := none, stackId := none,
        status := AVAILABLE, createdAt := none, updatedAt := now,
        outputs := r.outputs, lastSyncAt := r.lastSyncAt,
        syncError := r.syncError } := rfl

theorem applyUpdate_deleteInProgress (r : StackRecord) (now : String) :
    applyUpdate r deleteInProgressUpdate now =
      { guid := r.guid, stackArn := r.stackArn, stackName := r.stackName,
        stackId := r.stackId, status := DELETE_IN_PROGRESS,
        createdAt := r.createdAt, updatedAt := now, outputs := r.outputs,
        lastSyncAt := r.lastSyncAt, syncError := r.syncError } := rfl

theorem applyUpdate_syncReset (r : StackRecord) (now : String) :
    applyUpdate r (syncResetUpdates now) now =
      { guid := r.guid, stackArn := none, stackName := none, stackId := none,
        status := AVAILABLE, createdAt := none, updatedAt := now,
        outputs := none, lastSyncAt := some now, syncError := none } := rfl

theorem applyUpdate_lastSyncOnly (r : StackRecord) (now : String) :
    applyUpdate r (lastSyncOnlyUpdate now) now =
      { guid := r.guid, stackArn := r.stackArn, stackName := r.stackName,
        stackId := r.stackId, status := r.status, createdAt := r.createdAt,
        updatedAt := now, outputs := r.outputs, lastSyncAt := some now,
        syncError := r.syncError } := rfl

/-! ## Lemmas about syncStackRecord -/

theorem syncDiff_stackArn (r : StackRecord) (st : StackStatus)
    (nm sid ct : Option String) (os : List (Option String × Option String × Option String))
    (now : String) :
    ((syncDiffUpdates r st nm sid ct os now).1).stackArn = none := rfl

theorem syncStackRecord_guid (r : StackRecord) (d : DescribeResult)
    (now : String) : ((syncStackRecord r d now).1).guid = r.guid := by
  unfold syncStackRecord
  cases harn : r.stackArn with
  | none => rfl
  | some a =>
    cases d with
    | describeFailed m => rfl
    | notFound =>
      by_cases hs : (r.status == AVAILABLE) = true
      · simp [hs]
        rfl
      · simp [hs]
        rfl
    | found st nm sid ct os =>
      by_cases hdc : (st == DELETE_COMPLETE) = true
      · simp [hdc]
        rfl
      · simp only [hdc, Bool.false_eq_true, if_false]
        by_cases hch : (syncDiffUpdates r st nm sid ct os now).2 = true
        · simp [hch]
          rfl
        · simp [hch]
          rfl

theorem syncStackRecord_consistent (r : StackRecord) (d : DescribeResult)
    (now : String) (hd : describeStatusOk d)
    (hr : r.status = AVAILABLE ∨ r.stackArn.isSome = true) :
    ((syncStackRecord r d now).1).status = AVAILABLE ∨
      ((syncStackRecord r d now).1).stackArn.isSome = true := by
  unfold syncStackRecord
  cases harn : r.stackArn with
  | none => simpa [harn] using hr
  | some a =>
    cases d with
    | describeFailed m =>
      right
      simp [applyUpdate, ovr, UpdateSpec.empty, harn]
    | notFound =>
      by_cases hs : (r.status == AVAILABLE) = true
      · simp only [hs, Bool.not_true, Bool.false_eq_true, if_false]
        right
        simp [applyUpdate_lastSyncOnly, harn]
      · simp only [hs, Bool.not_false, if_true]
        left
        simp [applyUpdate_syncReset]
    | found st nm sid ct os =>
      by_cases hdc : (st == DELETE_COMPLETE) = true
      · simp only [hdc, if_true]
        left
        simp [applyUpdate_syncReset]
      · simp only [hdc, Bool.false_eq_true, if_false]
        by_cases hch : (syncDiffUpdates r st nm sid ct os now).2 = true
        · simp only [hch, if_true]
          right
          simp [applyUpdate, ovr, syncDiff_stackArn, harn]
        · simp only [hch, Bool.false_eq_true, if_false]
          right
          simp [applyUpdate_lastSyncOnly, harn]

theorem syncDiff_status (r : StackRecord) (st : StackStatus)
    (nm sid ct : Option String) (os : List (Option String × Option String × Option String))
    (now : String) :
    ((syncDiffUpdates r st nm sid ct os now).1).status =
      (if !(r.status == st) then some st else none) := rfl

theorem syncStackRecord_made_available (r : StackRecord) (d : DescribeResult)
    (now : String) (hd : describeStatusOk d) (hna : r.status ≠ AVAILABLE)
    (hres : ((syncStackRecord r d now).1).status = AVAILABLE) :
    d = .notFound ∨
      ∃ nm sid ct os, d = .found DELETE_COMPLETE nm sid ct os := by
  unfold syncStackRecord at hres
  cases harn : r.stackArn with
  | none =>
    rw [harn] at hres
    exact absurd hres hna
  | some a =>
    rw [harn] at hres
    cases d with
    | describeFailed m =>
      exfalso
      apply hna
      simpa [applyUpdate, ovr, UpdateSpec.empty] using hres
    | notFound => exact Or.inl rfl
    | found st nm sid ct os =>
      by_cases hdc : (st == DELETE_COMPLETE) = true
      · right
        refine ⟨nm, sid, ct, os, ?_⟩
        have : st = DELETE_COMPLETE := by simpa using hdc
        rw [this]
      · exfalso
        simp only [hdc, Bool.false_eq_true, if_false] at hres
        by_cases hch : (syncDiffUpdates r st nm sid ct os now).2 = true
        · simp only [hch, if_true] at hres
          by_cases hst : (r.status == st) = true
          · apply hna
            simpa [applyUpdate, syncDiff_status, hst] using hres
          · have : st = AVAILABLE := by
              simpa [applyUpdate, syncDiff_status, hst] using hres
            exact hd (by simpa [describeStatusOk] using this)
        · simp only [hch, Bool.false_eq_true, if_false] at hres
          apply hna
          simpa [applyUpdate_lastSyncOnly] using hres

/-! ## Invariant preservation -/

theorem record_unique {pool : List String} {s : Store} (hinv : StoreInv pool s)
    {r r' : StackRecord} (hr : r ∈ s) (hr' : r' ∈ s) (hg : r.guid = r'.guid) :
    r = r' := by
  have hnd : (List.map (fun x => x.guid) s).Nodup := by
    have hg' : List.map (fun x : StackRecord => x.guid) s = pool := hinv.guids
    rw [hg']
    exact hinv.nodup
  exact List.inj_on_of_nodup_map hnd hr hr' hg

theorem findStack_ok_some {store : Store} {code : String} {fOk : Bool}
    {info : StackInfo}
    (h : findStackByAccessCode store code fOk = .ok (some info)) :
    ∃ r, getStackRecord store code = some r ∧ r.status ≠ AVAILABLE ∧
      r.stackArn.isSome = true ∧ info.status = r.status ∧
      info.uniqueId = r.guid := by
  unfold findStackByAccessCode at h
  by_cases hv : validateAccessCode store code fOk = true
  · simp only [hv, Bool.not_true, Bool.false_eq_true, if_false] at h
    cases hrec : getStackRecord store code with
    | none => rw [hrec] at h; simp at h
    | some r =>
      rw [hrec] at h
      dsimp only at h
      by_cases hc : (r.status == AVAILABLE || !r.stackArn.isSome) = true
      · rw [if_pos hc] at h; simp at h
      · rw [if_neg hc] at h
        simp only [Except.ok.injEq, Option.some.injEq] at h
        rcases Bool.or_eq_false_iff.mp (Bool.not_eq_true _ ▸ hc) with ⟨h1, h2⟩
        refine ⟨r, rfl, by simpa using h1, by simpa using h2, ?_, ?_⟩
        · rw [← h]
        · rw [← h]
  · rw [if_pos (by simpa using hv)] at h
    simp at h

theorem deleteOne_inv {pool : List String} {store : Store}
    (hinv : StoreInv pool store) (code : String) (fOk dOk uOk : Bool)
    (now : String) :
    StoreInv pool (deleteStackByAccessCode store code fOk dOk uOk now).1 := by
  unfold deleteStackByAccessCode
  cases hfind : findStackByAccessCode store code fOk with
  | error e => exact hinv
  | ok o =>
    cases o with
    | none => exact hinv
    | some info =>
      by_cases h1 : (info.status == DELETE_IN_PROGRESS) = true
      · simp only [h1, if_true]
        exact hinv
      · simp only [h1, Bool.false_eq_true, if_false]
        by_cases h2 : List.contains inProgressStates info.status = true
        · simp only [h2, if_true]
          exact hinv
        · simp only [h2, Bool.false_eq_true, if_false]
          by_cases h3 : dOk = true
          · simp only [h3, if_true]
            by_cases h4 : uOk = true
            · simp only [h4, if_true]
              rcases findStack_ok_some hfind with ⟨r0, hrec, _, harn, _, _⟩
              have hr0mem := mem_of_getStackRecord hrec
              have hr0g := guid_of_getStackRecord hrec
              refine ⟨?_, hinv.nodup, ?_⟩
              · rw [pool_update]
                exact hinv.guids
              · intro x hx
                rcases mem_update hx with ⟨r, hr, hx'⟩
                by_cases hg : (r.guid == code) = true
                · subst hx'
                  rw [if_pos hg]
                  right
                  have : r = r0 :=
                    record_unique hinv hr hr0mem (by rw [hr0g]; simpa using hg)
                  rw [applyUpdate_deleteInProgress]
                  simpa [this] using harn
                · subst hx'
                  rw [if_neg hg]
                  exact hinv.consistent r hr
            · simp only [h4, Bool.false_eq_true, if_false]
              exact hinv
          · simp only [h3, Bool.false_eq_true, if_false]
            exact hinv

/-- All records carrying a given guid are linked to an ARN. -/
def ArnAll (s : Store) (g : String) : Prop :=
  ∀ r ∈ s, r.guid = g → r.stackArn.isSome = true

theorem deleteAllLoop_inv {pool : List String} (dOk uOk : String → Bool)
    (now : String) :
    ∀ (infos : List StackInfo) (store : Store)
      (acc : List (String × BulkOutcome)),
      StoreInv pool store →
      (∀ info ∈ infos, ArnAll store info.uniqueId) →
      StoreInv pool (deleteAllLoop dOk uOk now infos store acc).1 := by
  intro infos
  induction infos with
  | nil =>
    intro store acc hinv _
    exact hinv
  | cons info rest ih =>
    intro store acc hinv harn
    have harnInfo := harn info (List.mem_cons_self info rest)
    have harnRest : ∀ i ∈ rest, ArnAll store i.uniqueId :=
      fun i hi => harn i (List.mem_cons_of_mem info hi)
    simp only [deleteAllLoop]
    by_cases h1 : (info.status == DELETE_IN_PROGRESS) = true
    · simp only [h1, if_true]
      exact ih store _ hinv harnRest
    · simp only [h1, Bool.false_eq_true, if_false]
      by_cases h2 : List.contains inProgressStates info.status = true
      · simp only [h2, if_true]
        exact ih store _ hinv harnRest
      · simp only [h2, Bool.false_eq_true, if_false]
        by_cases h3 : dOk info.uniqueId = true
        · simp only [h3, if_true]
          by_cases h4 : uOk info.uniqueId = true
          · simp only [h4, if_true]
            have hinv' : StoreInv pool
                (updateStackRecord store info.uniqueId deleteInProgressUpdate now) := by
              refine ⟨?_, hinv.nodup, ?_⟩
              · rw [pool_update]
                exact hinv.guids
              · intro x hx
                rcases mem_update hx with ⟨r, hr, hx'⟩
                by_cases hg : (r.guid == info.uniqueId) = true
                · subst hx'
                  rw [if_pos hg]
                  right
                  rw [applyUpdate_deleteInProgress]
                  exact harnInfo r hr (by simpa using hg)
                · subst hx'
                  rw [if_neg hg]
                  exact hinv.consistent r hr
            have harn' : ∀ i ∈ rest, ArnAll
                (updateStackRecord store info.uniqueId deleteInProgressUpdate now)
                i.uniqueId := by
              intro i hi x hx hxg
              rcases mem_update hx with ⟨r, hr, hx'⟩
              by_cases hg : (r.guid == info.uniqueId) = true
              · subst hx'
                rw [if_pos hg] at hxg ⊢
                rw [applyUpdate_deleteInProgress]
                exact harnRest i hi r hr (by simpa using hxg)
              · subst hx'
                rw [if_neg hg] at hxg ⊢
                exact harnRest i hi r hr hxg
            exact ih _ _ hinv' harn'
          · simp only [h4, Bool.false_eq_true, if_false]
            exact ih store _ hinv harnRest
        · simp only [h3, Bool.false_eq_true, if_false]
          exact ih store _ hinv harnRest

theorem deleteAll_inv {pool : List String} {store : Store}
    (hinv : StoreInv pool store) (dOk uOk : String → Bool) (now : String) :
    StoreInv pool (deleteAllStacks store dOk uOk now).1 := by
  unfold deleteAllStacks
  apply deleteAllLoop_inv dOk uOk now _ store [] hinv
  intro info hinfo x hx hxg
  unfold getAllActiveStacks getAllStackRecords at hinfo
  rcases List.mem_map.mp hinfo with ⟨r, hrfil, hrinfo⟩
  have hrmem : r ∈ store := List.mem_of_mem_filter hrfil
  have hcond := List.of_mem_filter hrfil
  have harn : r.stackArn.isSome = true := by
    have hcond' : ¬(r.status = AVAILABLE) ∧ r.stackArn.isSome = true := by
      simpa using hcond
    exact hcond'.2
  have hguid : info.uniqueId = r.guid := by
    rw [← hrinfo]
  have : x = r := record_unique hinv hx hrmem (by rw [hxg, hguid])
  rw [this]
  exact harn

/-! ## Lemmas about code assignment -/

theorem available_record {store : Store} {c : String}
    (h : c ∈ getAvailableAccessCodes store) :
    ∃ r ∈ store, r.guid = c ∧ r.status = AVAILABLE := by
  unfold getAvailableAccessCodes getAllStackRecords at h
  rcases List.mem_map.mp h with ⟨r, hr, hg⟩
  exact ⟨r, List.mem_of_mem_filter hr, hg, by simpa using List.of_mem_filter hr⟩

theorem available_sub_pool {store : Store} {c : String}
    (h : c ∈ getAvailableAccessCodes store) : c ∈ getAccessCodePool store := by
  rcases available_record h with ⟨r, hr, hg, _⟩
  exact List.mem_map.mpr ⟨r, hr, hg⟩

theorem available_nodup {pool : List String} {store : Store}
    (hinv : StoreInv pool store) : (getAvailableAccessCodes store).Nodup := by
  have hsub : (getAvailableAccessCodes store).Sublist (getAccessCodePool store) := by
    unfold getAvailableAccessCodes getAccessCodePool getAllStackRecords
    exact List.Sublist.map _ (List.filter_sublist store)
  exact hsub.nodup (hinv.guids ▸ hinv.nodup)

theorem autoAssign_ok_spec {store : Store} {count : Nat}
    {assigned : List String}
    (h : autoAssignAccessCodes store count = .ok assigned) :
    assigned = (getAvailableAccessCodes store).take count ∧
    count ≤ (getAvailableAccessCodes store).length := by
  unfold autoAssignAccessCodes at h
  by_cases hlt : (getAvailableAccessCodes store).length < count
  · rw [if_pos hlt] at h
    simp at h
  · rw [if_neg hlt] at h
    simp only [Except.ok.injEq] at h
    exact ⟨h.symm, Nat.le_of_not_lt hlt⟩

theorem idxOf_cons_self (c : String) (xs : List String) :
    idxOf (c :: xs) c = 0 := by
  simp [idxOf]

theorem idxOf_cons_ne {x c : String} (xs : List String) (h : x ≠ c) :
    idxOf (x :: xs) c = idxOf xs c + 1 := by
  simp [idxOf, beq_false_of_ne h]

theorem dupEntriesAux_shift (a : String) (xs : List String) :
    ∀ (l : List String) (i : Nat),
      (dupEntriesAux (a :: xs) l (i + 1) = [] ↔
        a ∉ l ∧ dupEntriesAux xs l i = []) := by
  intro l
  induction l with
  | nil => simp [dupEntriesAux]
  | cons x t ih =>
    intro i
    by_cases hxa : x = a
    · subst hxa
      have h0 : idxOf (x :: xs) x = 0 := idxOf_cons_self x xs
      have hne : (idxOf (x :: xs) x == i + 1) = false := by
        rw [h0]
        simp
      simp only [dupEntriesAux, hne, Bool.not_false, if_true]
      simp
    · have hshift : idxOf (a :: xs) x = idxOf xs x + 1 :=
        idxOf_cons_ne xs (fun hh => hxa hh.symm)
      have hbeq : (idxOf (a :: xs) x == i + 1) = (idxOf xs x == i) := by
        rw [hshift]
        simp [Nat.beq_eq_true_eq]
      simp only [dupEntriesAux, hbeq]
      by_cases hflag : (idxOf xs x == i) = true
      · simp only [hflag, Bool.not_true, Bool.false_eq_true, if_false]
        rw [ih (i + 1)]
        constructor
        · rintro ⟨hna, hrest⟩
          refine ⟨?_, hrest⟩
          intro hmem
          rcases List.mem_cons.mp hmem with hh | hh
          · exact hxa hh.symm
          · exact hna hh
        · rintro ⟨hna, hrest⟩
          exact ⟨fun hh => hna (List.mem_cons_of_mem x hh), hrest⟩
      · simp only [hflag, Bool.not_false, if_true]
        simp

theorem duplicateEntries_eq_nil_iff (sel : List String) :
    duplicateEntries sel = [] ↔ sel.Nodup := by
  induction sel with
  | nil => simp [duplicateEntries, dupEntriesAux]
  | cons a xs ih =>
    unfold duplicateEntries
    have hhead : dupEntriesAux (a :: xs) (a :: xs) 0 =
        dupEntriesAux (a :: xs) xs 1 := by
      have h0 : (idxOf (a :: xs) a == 0) = true := by
        rw [idxOf_cons_self]
        simp
      simp [dupEntriesAux, h0]
    rw [hhead]
    rw [show (1 : Nat) = 0 + 1 from rfl, dupEntriesAux_shift]
    rw [List.nodup_cons]
    unfold duplicateEntries at ih
    rw [ih]

theorem assign_ok_spec {store : Store} {count : Nat} {sel : Option (List String)}
    {assigned : List String}
    (h : assignAccessCodes store count sel = .ok assigned) :
    (∀ c ∈ assigned, c ∈ getAvailableAccessCodes store) ∧
    assigned.length = count ∧
    (assigned.Nodup ∨ assigned.Sublist (getAvailableAccessCodes store)) := by
  have hauto : autoAssignAccessCodes store count = .ok assigned →
      (∀ c ∈ assigned, c ∈ getAvailableAccessCodes store) ∧
      assigned.length = count ∧
      (assigned.Nodup ∨ assigned.Sublist (getAvailableAccessCodes store)) := by
    intro hh
    rcases autoAssign_ok_spec hh with ⟨heq, hle⟩
    subst heq
    refine ⟨?_, ?_, Or.inr (List.take_sublist _ _)⟩
    · intro c hc
      exact (List.take_sublist _ _).subset hc
    · rw [List.length_take]
      omega
  unfold assignAccessCodes at h
  cases sel with
  | none => exact hauto h
  | some l =>
    dsimp only at h
    by_cases hlen : 0 < l.length
    · rw [if_pos hlen] at h
      by_cases h1 : (l.length == count) = true
      · rw [if_neg (by simp [h1])] at h
        by_cases h2 : 0 < (List.filter
            (fun c => !(List.contains (getAccessCodePool store) c)) l).length
        · rw [if_pos h2] at h
          simp at h
        · rw [if_neg h2] at h
          by_cases h3 : 0 < (List.filter
              (fun c => !(List.contains (getAvailableAccessCodes store) c)) l).length
          · rw [if_pos h3] at h
            simp at h
          · rw [if_neg h3] at h
            by_cases h4 : 0 < (duplicateEntries l).length
            · rw [if_pos h4] at h
              simp at h
            · rw [if_neg h4] at h
              simp only [Except.ok.injEq] at h
              subst h
              have hfil : (List.filter
                  (fun c => !(List.contains (getAvailableAccessCodes store) c)) l) = [] := by
                cases hf : (List.filter
                    (fun c => !(List.contains (getAvailableAccessCodes store) c)) l) with
                | nil => rfl
                | cons x xs => rw [hf] at h3; simp at h3
              have hdup : duplicateEntries l = [] := by
                cases hd : duplicateEntries l with
                | nil => rfl
                | cons x xs => rw [hd] at h4; simp at h4
              refine ⟨?_, by simpa using h1, Or.inl ((duplicateEntries_eq_nil_iff l).mp hdup)⟩
              intro c hc
              have := List.filter_eq_nil_iff.mp hfil c hc
              simp only [Bool.not_eq_true', Bool.not_eq_false] at this
              have hcontains : List.contains (getAvailableAccessCodes store) c = true := by
                simpa using this
              simpa [List.contains] using hcontains
      · rw [if_pos (by simp [h1])] at h
        simp at h
    · rw [if_neg hlen] at h
      exact hauto h

theorem assign_ok_mem_pool {store : Store} {count : Nat}
    {sel : Option (List String)} {assigned : List String}
    (h : assignAccessCodes store count sel = .ok assigned) :
    ∀ c ∈ assigned, c ∈ getAccessCodePool store := by
  intro c hc
  exact available_sub_pool ((assign_ok_spec h).1 c hc)

theorem assign_ok_nodup {pool : List String} {store : Store}
    (hinv : StoreInv pool store) {count : Nat} {sel : Option (List String)}
    {assigned : List String}
    (h : assignAccessCodes store count sel = .ok assigned) :
    assigned.Nodup := by
  rcases (assign_ok_spec h).2.2 with hnd | hsub
  · exact hnd
  · exact hsub.nodup (available_nodup hinv)

/-! ## Invariant preservation for deploy and reconcile -/

theorem put_inv {pool : List String} {store : Store} (hinv : StoreInv pool store)
    (rec : StackRecord) (hg : rec.guid ∈ pool)
    (hcons : rec.status = AVAILABLE ∨ rec.stackArn.isSome = true) :
    StoreInv pool (putStackRecord store rec) := by
  refine ⟨?_, hinv.nodup, ?_⟩
  · rw [pool_put_of_mem store rec (by rw [hinv.guids]; exact hg)]
    exact hinv.guids
  · intro x hx
    rcases mem_put_of_mem hx with hh | hh
    · rw [hh]
      exact hcons
    · exact hinv.consistent x hh

theorem update_reset_inv {pool : List String} {store : Store}
    (hinv : StoreInv pool store) (code now : String) :
    StoreInv pool (updateStackRecord store code deployFailureReset now) := by
  refine ⟨?_, hinv.nodup, ?_⟩
  · rw [pool_update]
    exact hinv.guids
  · intro x hx
    rcases mem_update hx with ⟨r, hr, hx'⟩
    subst hx'
    by_cases hg : (r.guid == code) = true
    · rw [if_pos hg, applyUpdate_deployFailureReset]
      left
      rfl
    · rw [if_neg hg]
      exact hinv.consistent r hr

theorem deployLoop_inv {pool : List String} (stackCount : Nat)
    (cOk pOk uOk : Nat → Bool) (sidOf : Nat → String) (pfx ts now : String) :
    ∀ (codes : List String) (i succ failed : Nat) (store : Store)
      (acc : List DeployedStack),
      StoreInv pool store → (∀ c ∈ codes, c ∈ pool) →
      StoreInv pool (deployLoop stackCount cOk pOk uOk sidOf pfx ts now
        codes i succ failed store acc).store := by
  intro codes
  induction codes with
  | nil =>
    intro i succ failed store acc hinv _
    simpa [deployLoop] using hinv
  | cons c rest ih =>
    intro i succ failed store acc hinv hall
    have hc : c ∈ pool := hall c (List.mem_cons_self c rest)
    have hrest : ∀ x ∈ rest, x ∈ pool :=
      fun x hx => hall x (List.mem_cons_of_mem c hx)
    simp only [deployLoop]
    by_cases h1 : cOk i = true
    · simp only [h1, if_true]
      by_cases h2 : pOk i = true
      · simp only [h2, if_true]
        exact ih _ _ _ _ _
          (put_inv hinv (deployRecord c i sidOf pfx ts now) hc (Or.inr rfl))
          hrest
      · simp only [h2, Bool.false_eq_true, if_false]
        exact ih _ _ _ _ _ hinv hrest
    · simp only [h1, Bool.false_eq_true, if_false]
      by_cases h3 : stackCount < 2 * (failed + 1)
      · rw [if_pos h3]
        by_cases h2 : uOk i = true
        · simp only [h2, if_true]
          exact update_reset_inv hinv c now
        · simp only [h2, Bool.false_eq_true, if_false]
          exact hinv
      · rw [if_neg h3]
        by_cases h2 : uOk i = true
        · simp only [h2, if_true]
          exact ih _ _ _ _ _ (update_reset_inv hinv c now) hrest
        · simp only [h2, Bool.false_eq_true, if_false]
          exact ih _ _ _ _ _ hinv hrest

theorem deploy_inv {pool : List String} {store : Store}
    (hinv : StoreInv pool store) (stackCount : Nat)
    (selected : Option (List String)) (maxPoolSize : Nat)
    (cOk pOk uOk : Nat → Bool) (sidOf : Nat → String) (pfx ts now : String) :
    StoreInv pool (deployStacks store stackCount selected maxPoolSize
      cOk pOk uOk sidOf pfx ts now).1 := by
  unfold deployStacks
  by_cases h0 : (stackCount == 0) = true
  · simp only [h0, if_true]
    exact hinv
  · simp only [h0, Bool.false_eq_true, if_false]
    by_cases h1 : maxPoolSize < stackCount
    · rw [if_pos h1]
      exact hinv
    · rw [if_neg h1]
      cases hassign : assignAccessCodes store stackCount selected with
      | error e => exact hinv
      | ok assigned =>
        have hsub : ∀ c ∈ assigned, c ∈ pool := by
          intro c hcmem
          rw [← hinv.guids]
          exact assign_ok_mem_pool hassign c hcmem
        have hloop := @deployLoop_inv pool stackCount cOk pOk uOk
          sidOf pfx ts now assigned 0 0 0 store [] hinv hsub
        cases habort : (deployLoop stackCount cOk pOk uOk sidOf pfx ts now
            assigned 0 0 0 store []).aborted with
        | some f => simpa [habort] using hloop
        | none => simpa [habort] using hloop

theorem syncStorePass_inv {pool : List String} {store : Store}
    (hinv : StoreInv pool store) (view : String → DescribeResult)
    (now : String) (hview : ∀ g, describeStatusOk (view g)) :
    StoreInv pool (syncStorePass store view now) := by
  refine ⟨?_, hinv.nodup, ?_⟩
  · unfold syncStorePass getAccessCodePool getAllStackRecords
    rw [List.map_map]
    have : List.map
        ((fun r : StackRecord => r.guid) ∘
          (fun r => if r.status == AVAILABLE then r
                    else (syncStackRecord r (view r.guid) now).1)) store =
        List.map (fun r : StackRecord => r.guid) store := by
      apply List.map_congr_left
      intro r _
      by_cases ha : (r.status == AVAILABLE) = true
      · simp [Function.comp, ha]
      · simp [Function.comp, ha, syncStackRecord_guid]
    rw [this]
    exact hinv.guids
  · intro x hx
    unfold syncStorePass at hx
    rcases List.mem_map.mp hx with ⟨r, hr, hx'⟩
    subst hx'
    by_cases ha : (r.status == AVAILABLE) = true
    · rw [if_pos ha]
      exact hinv.consistent r hr
    · rw [if_neg ha]
      exact syncStackRecord_consistent r (view r.guid) now (hview r.guid)
        (hinv.consistent r hr)

theorem reconcile_inv {pool : List String} {store : Store}
    (hinv : StoreInv pool store) (view : String → DescribeResult)
    (now : String) (rule : RuleState) (env : TriggerEnv) (refetchOk : Bool)
    (hview : ∀ g, describeStatusOk (view g)) :
    StoreInv pool (syncAllStacks store view now rule env refetchOk).store := by
  unfold syncAllStacks
  by_cases h0 : ((getNonAvailableStackRecords store).length == 0) = true
  · simp only [h0, if_true]
    split
    · exact hinv
    · exact hinv
  · simp only [h0, Bool.false_eq_true, if_false]
    split
    · exact syncStorePass_inv hinv view now hview
    · exact syncStorePass_inv hinv view now hview

theorem execOp_inv {pool : List String} {store : Store} (op : Op)
    (hop : OpOk op) (hinv : StoreInv pool store) :
    StoreInv pool (execOp op store) := by
  cases op with
  | deploy stackCount selected maxPoolSize cOk pOk uOk sidOf pfx ts now =>
    exact deploy_inv hinv stackCount selected maxPoolSize cOk pOk uOk sidOf pfx ts now
  | deleteOne accessCode fOk dOk uOk now =>
    exact deleteOne_inv hinv accessCode fOk dOk uOk now
  | deleteAll dOk uOk now =>
    exact deleteAll_inv hinv dOk uOk now
  | reconcile view now rule env refetchOk =>
    exact reconcile_inv hinv view now rule env refetchOk hop

theorem execOps_inv {pool : List String} (ops : List Op)
    (hops : ∀ op ∈ ops, OpOk op) :
    ∀ (store : Store), StoreInv pool store → StoreInv pool (execOps ops store) := by
  induction ops with
  | nil =>
    intro store hinv
    exact hinv
  | cons op rest ih =>
    intro store hinv
    have h1 := hops op (List.mem_cons_self op rest)
    have h2 : ∀ o ∈ rest, OpOk o := fun o ho => hops o (List.mem_cons_of_mem op ho)
    exact ih h2 _ (execOp_inv op h1 hinv)

theorem initPool_inv (codes : List String) (now : String)
    (hnd : codes.Nodup) : StoreInv codes (initAccessCodePool [] codes now) := by
  have hrec : initAccessCodePool [] codes now =
      List.map (fun accessCode =>
        ({ guid := accessCode, stackArn := none, stackName := none,
           stackId := none, status := AVAILABLE, createdAt := none,
           updatedAt := now, outputs := none, lastSyncAt := none,
           syncError := none } : StackRecord)) codes := by
    simp [initAccessCodePool, List.contains]
  refine ⟨?_, hnd, ?_⟩
  · rw [hrec]
    unfold getAccessCodePool getAllStackRecords
    rw [List.map_map]
    have hid : List.map ((fun r : StackRecord => r.guid) ∘
        (fun accessCode =>
          ({ guid := accessCode, stackArn := none, stackName := none,
             stackId := none, status := AVAILABLE, createdAt := none,
             updatedAt := now, outputs := none, lastSyncAt := none,
             syncError := none } : StackRecord))) codes =
        List.map (fun c => c) codes := List.map_congr_left (fun c _ => rfl)
    rw [hid, List.map_id']
  · intro r hr
    rw [hrec] at hr
    rcases List.mem_map.mp hr with ⟨c, _, hx⟩
    subst hx
    left
    rfl

/-! ## Claim theorems -/

/-- Claim C1: Pool conservation. For every sequence of allocate (deploy),
delete (single or bulk) and reconcile operations applied to an initialized
pool, the number of records with status AVAILABLE plus the number of
records linked to a resource (status not AVAILABLE with a stackArn) equals
the fixed pool size; no operation creates, destroys or double-counts a
pool slot. -/
theorem pool_conservation (codes : List String) (initTime : String)
    (hnd : codes.Nodup) (ops : List Op) (hops : ∀ op ∈ ops, OpOk op) :
    countAvailable (execOps ops (initAccessCodePool [] codes initTime)) +
      countLinked (execOps ops (initAccessCodePool [] codes initTime)) =
      codes.length := by
  have hinv := execOps_inv ops hops _ (initPool_inv codes initTime hnd)
  have hlen : (execOps ops (initAccessCodePool [] codes initTime)).length =
      codes.length := by
    have hpool : getAccessCodePool
        (execOps ops (initAccessCodePool [] codes initTime)) = codes :=
      hinv.guids
    calc (execOps ops (initAccessCodePool [] codes initTime)).length
        = (getAccessCodePool
            (execOps ops (initAccessCodePool [] codes initTime))).length := by
          unfold getAccessCodePool getAllStackRecords
          rw [List.length_map]
      _ = codes.length := by rw [hpool]
  rw [conservation_of_consistent _ hinv.consistent, hlen]

/-- Witness for C1 at a concrete pool of two codes, with one deployment of
one stack followed by a reconcile pass observing the stack as gone. -/
theorem pool_conservation_witness :
    countAvailable (execOps
      [Op.deploy 1 none 60 (fun _ => true) (fun _ => true) (fun _ => true)
        (fun _ => "sid-0") "p" "ts" "t1",
       Op.reconcile (fun _ => DescribeResult.notFound) "t2" RuleState.ENABLED
        ⟨true, true⟩ true]
      (initAccessCodePool [] ["a", "b"] "t0")) +
    countLinked (execOps
      [Op.deploy 1 none 60 (fun _ => true) (fun _ => true) (fun _ => true)
        (fun _ => "sid-0") "p" "ts" "t1",
       Op.reconcile (fun _ => DescribeResult.notFound) "t2" RuleState.ENABLED
        ⟨true, true⟩ true]
      (initAccessCodePool [] ["a", "b"] "t0")) = 2 := by
  have h := pool_conservation ["a", "b"] "t0" (by decide)
    [Op.deploy 1 none 60 (fun _ => true) (fun _ => true) (fun _ => true)
      (fun _ => "sid-0") "p" "ts" "t1",
     Op.reconcile (fun _ => DescribeResult.notFound) "t2" RuleState.ENABLED
      ⟨true, true⟩ true]
    (by
      intro op hop
      rcases List.mem_cons.mp hop with h | h
      · subst h
        trivial
      · rcases List.mem_cons.mp h with h2 | h2
        · subst h2
          intro g
          trivial
        · cases h2)
  exact h

theorem findStack_eval {store : Store} {code : String} {r : StackRecord}
    (hrec : getStackRecord store code = some r) :
    findStackByAccessCode store code true =
      (if (r.status == AVAILABLE || !r.stackArn.isSome) = true then .ok none
       else .ok (some ⟨r.stackName.getD "", r.stackId.getD "", r.guid,
         r.status, r.createdAt.getD ""⟩)) := by
  unfold findStackByAccessCode validateAccessCode
  rw [hrec]
  simp

/-- Claim C4: DeleteOne guards. For a pool record r under its access code:
deletion fails with the not-found error when the record is unlinked
(AVAILABLE) or has no stackArn; when the status is DELETE_IN_PROGRESS it
returns a non-error success-false response and writes nothing; when the
status is any other in-progress status it fails with the
operation-in-progress error; otherwise the external delete is invoked and,
when it and the store write succeed, the record is persisted with status
DELETE_IN_PROGRESS. -/
theorem deleteOne_guards (store : Store) (code : String) (r : StackRecord)
    (dOk uOk : Bool) (now : String)
    (hrec : getStackRecord store code = some r) :
    ((r.status = AVAILABLE ∨ r.stackArn = none) →
      (deleteStackByAccessCode store code true dOk uOk now).2 =
        .error (.stackNotFound code) ∧
      (deleteStackByAccessCode store code true dOk uOk now).1 = store) ∧
    (r.stackArn.isSome = true → r.status = DELETE_IN_PROGRESS →
      ∃ resp, (deleteStackByAccessCode store code true dOk uOk now).2 = .ok resp ∧
        resp.success = false ∧ resp.deletionStatus = DELETE_IN_PROGRESS ∧
        (deleteStackByAccessCode store code true dOk uOk now).1 = store) ∧
    (r.stackArn.isSome = true → r.status ∈ inProgressStates →
      (deleteStackByAccessCode store code true dOk uOk now).2 =
        .error (.operationInProgress (r.stackName.getD "") r.status) ∧
      (deleteStackByAccessCode store code true dOk uOk now).1 = store) ∧
    (r.stackArn.isSome = true → r.status ≠ AVAILABLE →
      r.status ≠ DELETE_IN_PROGRESS → r.status ∉ inProgressStates →
      dOk = true → uOk = true →
      (∃ resp, (deleteStackByAccessCode store code true dOk uOk now).2 = .ok resp ∧
        resp.success = true ∧ resp.deletionStatus = DELETE_IN_PROGRESS) ∧
      getStackRecord (deleteStackByAccessCode store code true dOk uOk now).1 code =
        some (applyUpdate r deleteInProgressUpdate now)) := by
  refine ⟨?_, ?_, ?_, ?_⟩
  · intro h
    have hcond : (r.status == AVAILABLE || !r.stackArn.isSome) = true := by
      rcases h with h | h
      · simp [h]
      · simp [h]
    unfold deleteStackByAccessCode
    rw [findStack_eval hrec, if_pos hcond]
    exact ⟨rfl, rfl⟩
  · intro harn hdel
    have hcond : (r.status == AVAILABLE || !r.stackArn.isSome) = false := by
      rw [hdel, harn]
      rfl
    unfold deleteStackByAccessCode
    rw [findStack_eval hrec, if_neg (by simp only [hcond]; simp)]
    dsimp only
    rw [if_pos (by simp [hdel])]
    exact ⟨_, rfl, rfl, rfl, rfl⟩
  · intro harn hmem
    have hne : r.status ≠ AVAILABLE := by
      intro hh
      rw [hh] at hmem
      simp [inProgressStates] at hmem
    have hnd : r.status ≠ DELETE_IN_PROGRESS := by
      intro hh
      rw [hh] at hmem
      simp [inProgressStates] at hmem
    have hcond : (r.status == AVAILABLE || !r.stackArn.isSome) = false := by
      rw [harn]
      simp [hne]
    unfold deleteStackByAccessCode
    rw [findStack_eval hrec, if_neg (by simp only [hcond]; simp)]
    dsimp only
    rw [if_neg (by simp [hnd])]
    have hcontains : List.contains inProgressStates r.status = true := by
      simpa [List.contains] using hmem
    rw [if_pos hcontains]
    exact ⟨rfl, rfl⟩
  · intro harn hne hnd hnmem hdok huok
    have hcond : (r.status == AVAILABLE || !r.stackArn.isSome) = false := by
      rw [harn]
      simp [hne]
    have hcontains : List.contains inProgressStates r.status = false := by
      have : ¬ (List.contains inProgressStates r.status = true) := by
        intro hh
        exact hnmem (by simpa [List.contains] using hh)
      simpa using this
    unfold deleteStackByAccessCode
    rw [findStack_eval hrec, if_neg (by simp only [hcond]; simp)]
    dsimp only
    rw [if_neg (by simp [hnd]), if_neg (by simp only [hcontains]; simp), if_pos hdok]
    refine ⟨⟨_, rfl, rfl, rfl⟩, ?_⟩
    dsimp only
    rw [if_pos huok]
    rw [getStackRecord_update_self, hrec]
    rfl

/-- Witness for C4: a CREATE_COMPLETE linked record is deletable and ends
DELETE_IN_PROGRESS; the spec scenario (DeleteOne on a CREATE_IN_PROGRESS
record) fails with the operation-in-progress error. -/
theorem deleteOne_guards_witness :
    (∃ resp,
      (deleteStackByAccessCode
        [{ guid := "a", stackArn := some "arn", stackName := some "n",
           stackId := some "i", status := CREATE_COMPLETE,
           createdAt := some "c", updatedAt := "t0", outputs := none,
           lastSyncAt := none, syncError := none }] "a" true true true "t1").2 =
        .ok resp ∧ resp.success = true ∧
        resp.deletionStatus = DELETE_IN_PROGRESS) ∧
    (deleteStackByAccessCode
      [{ guid := "a", stackArn := some "arn", stackName := some "n",
         stackId := some "i", status := CREATE_IN_PROGRESS,
         createdAt := some "c", updatedAt := "t0", outputs := none,
         lastSyncAt := none, syncError := none }] "a" true true true "t1").2 =
      .error (.operationInProgress "n" CREATE_IN_PROGRESS) := by
  constructor
  · exact (deleteOne_guards
      [{ guid := "a", stackArn := some "arn", stackName := some "n",
         stackId := some "i", status := CREATE_COMPLETE,
         createdAt := some "c", updatedAt := "t0", outputs := none,
         lastSyncAt := none, syncError := none }] "a"
      { guid := "a", stackArn := some "arn", stackName := some "n",
        stackId := some "i", status := CREATE_COMPLETE,
        createdAt := some "c", updatedAt := "t0", outputs := none,
        lastSyncAt := none, syncError := none } true true "t1"
      (by rfl)).2.2.2 rfl (by decide) (by decide) (by decide) rfl rfl |>.1
  · exact ((deleteOne_guards
      [{ guid := "a", stackArn := some "arn", stackName := some "n",
         stackId := some "i", status := CREATE_IN_PROGRESS,
         createdAt := some "c", updatedAt := "t0", outputs := none,
         lastSyncAt := none, syncError := none }] "a"
      { guid := "a", stackArn := some "arn", stackName := some "n",
        stackId := some "i", status := CREATE_IN_PROGRESS,
        createdAt := some "c", updatedAt := "t0", outputs := none,
        lastSyncAt := none, syncError := none } true true "t1"
      (by rfl)).2.2.1 rfl (by simp [inProgressStates])).1

/-- Counterexample for C9: the claim says isComplete is true for every
failure terminal status, but the code returns isComplete = false for a
linked record in CREATE_FAILED (only DELETE_COMPLETE and DELETE_FAILED
yield true). -/
theorem status_projection_counterexample :
    ∃ resp, getDeletionStatus
      [{ guid := "a", stackArn := some "arn", stackName := some "n",
         stackId := some "i", status := CREATE_FAILED, createdAt := some "c",
         updatedAt := "t0", outputs := none, lastSyncAt := none,
         syncError := none }] "a" true = .ok resp ∧
      resp.status = CREATE_FAILED ∧ resp.isComplete = false := by
  refine ⟨_, rfl, rfl, rfl⟩

/-- Claim C9 (amended): Status and StatusAll are pure projections of the
stored status, each with its own fixed progress-message table; isComplete
is true exactly for DELETE_COMPLETE and DELETE_FAILED, and false for every
other status including the other failure terminals and every in-progress
status; a record that is unlinked or has no stackArn reports
DELETE_COMPLETE with isComplete true. -/
theorem status_projection (store : Store) (code : String) (r : StackRecord) :
    (∀ s : StackStatus, (deletionProgressOne s).2 = true ↔
        (s = DELETE_COMPLETE ∨ s = DELETE_FAILED)) ∧
    (∀ s : StackStatus, (deletionProgressAll s).2 = true ↔
        (s = DELETE_COMPLETE ∨ s = DELETE_FAILED)) ∧
    (getStackRecord store code = some r → r.status ≠ AVAILABLE →
      r.stackArn.isSome = true →
      getDeletionStatus store code true =
        .ok ⟨r.status, (deletionProgressOne r.status).1,
          (deletionProgressOne r.status).2⟩) ∧
    (getStackRecord store code = some r →
      (r.status = AVAILABLE ∨ r.stackArn = none) →
      getDeletionStatus store code true =
        .ok ⟨DELETE_COMPLETE,
          "Stack has been successfully deleted and Access Code is now available for reuse.",
          true⟩) ∧
    (∀ p ∈ getAllDeletionStatus store,
      p.2.isComplete = true ↔
        (p.2.status = DELETE_COMPLETE ∨ p.2.status = DELETE_FAILED)) := by
  refine ⟨?_, ?_, ?_, ?_, ?_⟩
  · intro s
    cases s <;> simp [deletionProgressOne]
  · intro s
    cases s <;> simp [deletionProgressAll]
  · intro hrec hna harn
    have hcond : (r.status == AVAILABLE || !r.stackArn.isSome) = false := by
      rw [harn]
      simp [hna]
    unfold getDeletionStatus
    rw [findStack_eval hrec, if_neg (by simp only [hcond]; simp)]
  · intro hrec h
    have hcond : (r.status == AVAILABLE || !r.stackArn.isSome) = true := by
      rcases h with h | h
      · simp [h]
      · simp [h]
    unfold getDeletionStatus
    rw [findStack_eval hrec, if_pos hcond]
  · intro p hp
    unfold getAllDeletionStatus at hp
    rcases List.mem_map.mp hp with ⟨info, _, hpd⟩
    subst hpd
    dsimp only
    cases info.status <;> simp [deletionProgressAll]

/-- Witness for C9 at concrete stores: a DELETE_FAILED record projects to
isComplete true, and an unlinked record reports DELETE_COMPLETE. -/
theorem status_projection_witness :
    getDeletionStatus
      [{ guid := "a", stackArn := some "arn", stackName := some "n",
         stackId := some "i", status := DELETE_FAILED, createdAt := some "c",
         updatedAt := "t0", outputs := none, lastSyncAt := none,
         syncError := none }] "a" true =
      .ok ⟨DELETE_FAILED, (deletionProgressOne DELETE_FAILED).1, true⟩ ∧
    getDeletionStatus
      [{ guid := "b", stackArn := none, stackName := none,
         stackId := none, status := AVAILABLE, createdAt := none,
         updatedAt := "t0", outputs := none, lastSyncAt := none,
         syncError := none }] "b" true =
      .ok ⟨DELETE_COMPLETE,
        "Stack has been successfully deleted and Access Code is now available for reuse.",
        true⟩ := by
  constructor
  · exact (status_projection
      [{ guid := "a", stackArn := some "arn", stackName := some "n",
         stackId := some "i", status := DELETE_FAILED, createdAt := some "c",
         updatedAt := "t0", outputs := none, lastSyncAt := none,
         syncError := none }] "a"
      { guid := "a", stackArn := some "arn", stackName := some "n",
        stackId := some "i", status := DELETE_FAILED, createdAt := some "c",
        updatedAt := "t0", outputs := none, lastSyncAt := none,
        syncError := none }).2.2.1 rfl (by decide) rfl
  · exact (status_projection
      [{ guid := "b", stackArn := none, stackName := none,
         stackId := none, status := AVAILABLE, createdAt := none,
         updatedAt := "t0", outputs := none, lastSyncAt := none,
         syncError := none }] "b"
      { guid := "b", stackArn := none, stackName := none,
        stackId := none, status := AVAILABLE, createdAt := none,
        updatedAt := "t0", outputs := none, lastSyncAt := none,
        syncError := none }).2.2.2.1 rfl (Or.inl rfl)

/-- Lexicographic comparison of strings by character code, used only to
state the ascending-by-id ordering named by the specification. -/
def charListLe : List Char → List Char → Bool
  | [], _ => true
  | _ :: _, [] => false
  | a :: as, b :: bs =>
    if a.toNat < b.toNat then true
    else if b.toNat < a.toNat then false
    else charListLe as bs

/-- String comparison for the ascending-by-id order of the specification. -/
def strLe (a b : String) : Bool := charListLe a.toList b.toList

/-- Insertion into an ascending list (for the spec-side ordering). -/
def insertAsc (c : String) : List String → List String
  | [] => [c]
  | x :: xs => if strLe c x then c :: x :: xs else x :: insertAsc c xs

/-- Insertion sort into ascending-by-id order (spec-side ordering). -/
def sortAsc (l : List String) : List String := List.foldr insertAsc [] l

/-- The auto-assignment exactly as claim C3 words it: the first count
AVAILABLE ids in a stable ascending-by-id order. This definition follows
the claim's words, to be compared against the code's assignAccessCodes. -/
def specAutoAssign (store : Store) (count : Nat) : List String :=
  List.take count (sortAsc (getAvailableAccessCodes store))

/-- Counterexample for C3: when the table scan returns the AVAILABLE
records in the order b then a, the code assigns b (scan order), while the
first AVAILABLE id in ascending-by-id order is a. The selection therefore
depends on store iteration order and is not the ascending-by-id choice the
claim states. -/
theorem stable_order_counterexample :
    assignAccessCodes
      [{ guid := "b", stackArn := none, stackName := none, stackId := none,
         status := AVAILABLE, createdAt := none, updatedAt := "t0",
         outputs := none, lastSyncAt := none, syncError := none },
       { guid := "a", stackArn := none, stackName := none, stackId := none,
         status := AVAILABLE, createdAt := none, updatedAt := "t0",
         outputs := none, lastSyncAt := none, syncError := none }] 1 none =
      .ok ["b"] ∧
    specAutoAssign
      [{ guid := "b", stackArn := none, stackName := none, stackId := none,
         status := AVAILABLE, createdAt := none, updatedAt := "t0",
         outputs := none, lastSyncAt := none, syncError := none },
       { guid := "a", stackArn := none, stackName := none, stackId := none,
         status := AVAILABLE, createdAt := none, updatedAt := "t0",
         outputs := none, lastSyncAt := none, syncError := none }] 1 =
      ["a"] ∧
    (["b"] : List String) ≠ ["a"] := by
  refine ⟨rfl, by decide, by decide⟩

/-- Claim C3 (amended): auto-assignment is deterministic given the store
contents and scan order: when at least count codes are AVAILABLE, the
assigned ids are exactly the first count AVAILABLE ids in the order the
records appear in the table scan; the source applies no sorting, so the
selection depends on the scan order rather than on the ascending-by-id
order. -/
theorem stable_order_amended (store : Store) (count : Nat)
    (h : count ≤ (getAvailableAccessCodes store).length) :
    assignAccessCodes store count none =
      .ok (List.take count (getAvailableAccessCodes store)) := by
  unfold assignAccessCodes autoAssignAccessCodes
  rw [if_neg (by omega)]

/-- Witness for C3 (amended) at a concrete two-record store. -/
theorem stable_order_amended_witness :
    assignAccessCodes
      [{ guid := "b", stackArn := none, stackName := none, stackId := none,
         status := AVAILABLE, createdAt := none, updatedAt := "t0",
         outputs := none, lastSyncAt := none, syncError := none },
       { guid := "a", stackArn := none, stackName := none, stackId := none,
         status := AVAILABLE, createdAt := none, updatedAt := "t0",
         outputs := none, lastSyncAt := none, syncError := none }] 1 none =
      .ok ["b"] :=
  stable_order_amended _ 1 (by decide)

/-- The InvalidSelection error family (bad, duplicate or unavailable
explicit ids); the pool-exhausted error is separate. -/
def isInvalidSelection : AssignError → Bool
  | .countMismatch _ _ => true
  | .invalidAccessCodes _ => true
  | .codesNotAvailable _ _ => true
  | .duplicateAccessCodes _ => true
  | .insufficientAccessCodes _ _ _ => false

/-- Counterexample for C8: an explicitly given but empty selection with
count 1 does not fail with an InvalidSelection error as the claim requires
(its length 0 differs from count 1); the code treats it as absent and
auto-assigns successfully. -/
theorem allocate_validation_counterexample :
    assignAccessCodes
      [{ guid := "a", stackArn := none, stackName := none, stackId := none,
         status := AVAILABLE, createdAt := none, updatedAt := "t0",
         outputs := none, lastSyncAt := none, syncError := none }] 1
      (some []) = .ok ["a"] := rfl

/-- Claim C8 (amended): for every call with a NON-EMPTY explicit list, the
call fails with an InvalidSelection-family error exactly when the list's
length differs from count, or some id is not in the pool, or some id is
not AVAILABLE, or some id repeats; when all four conditions hold it
returns exactly the selected list. An empty explicit list is treated as
absent, and auto-assignment applies. Without explicit ids, when fewer than
count codes are AVAILABLE the call fails with the pool-exhausted error
carrying the requested and available counts. -/
theorem allocate_validation (store : Store) (count : Nat) (sel : List String) :
    (0 < sel.length →
      ((∃ e, assignAccessCodes store count (some sel) = .error e ∧
          isInvalidSelection e = true) ↔
        ¬(sel.length = count ∧ (∀ c ∈ sel, c ∈ getAccessCodePool store) ∧
          (∀ c ∈ sel, c ∈ getAvailableAccessCodes store) ∧ sel.Nodup)) ∧
      ((sel.length = count ∧ (∀ c ∈ sel, c ∈ getAccessCodePool store) ∧
          (∀ c ∈ sel, c ∈ getAvailableAccessCodes store) ∧ sel.Nodup) →
        assignAccessCodes store count (some sel) = .ok sel)) ∧
    (assignAccessCodes store count (some []) =
      autoAssignAccessCodes store count) ∧
    ((getAvailableAccessCodes store).length < count →
      assignAccessCodes store count none =
        .error (.insufficientAccessCodes count
          (getAvailableAccessCodes store).length
          (getAccessCodePool store).length)) := by
  have hpoolmem : ∀ c,
      (!(List.contains (getAccessCodePool store) c)) = false ↔
        c ∈ getAccessCodePool store := by
    intro c
    simp [List.contains]
  have havailmem : ∀ c,
      (!(List.contains (getAvailableAccessCodes store) c)) = false ↔
        c ∈ getAvailableAccessCodes store := by
    intro c
    simp [List.contains]
  refine ⟨?_, rfl, ?_⟩
  · intro hlen
    unfold assignAccessCodes
    dsimp only
    rw [if_pos hlen]
    by_cases h1 : (sel.length == count) = true
    · rw [if_neg (by simp [h1])]
      by_cases h2 : 0 < (List.filter
          (fun c => !(List.contains (getAccessCodePool store) c)) sel).length
      · rw [if_pos h2]
        have hc2 : ¬ (∀ c ∈ sel, c ∈ getAccessCodePool store) := by
          intro hall
          have : (List.filter
              (fun c => !(List.contains (getAccessCodePool store) c)) sel) = [] := by
            rw [List.filter_eq_nil_iff]
            intro c hc
            simp only [Bool.not_eq_true]
            exact (hpoolmem c).mpr (hall c hc)
          rw [this] at h2
          simp at h2
        constructor
        · constructor
          · intro _
            intro hcond
            exact hc2 hcond.2.1
          · intro _
            exact ⟨_, rfl, rfl⟩
        · intro hcond
          exact absurd hcond.2.1 hc2
      · rw [if_neg h2]
        have hc2 : ∀ c ∈ sel, c ∈ getAccessCodePool store := by
          intro c hc
          by_contra hcc
          have hmem : c ∈ List.filter
              (fun c => !(List.contains (getAccessCodePool store) c)) sel := by
            rw [List.mem_filter]
            refine ⟨hc, ?_⟩
            simpa [List.contains] using hcc
          apply h2
          exact List.length_pos.mpr (fun hnil => by rw [hnil] at hmem; cases hmem)
        by_cases h3 : 0 < (List.filter
            (fun c => !(List.contains (getAvailableAccessCodes store) c)) sel).length
        · rw [if_pos h3]
          have hc3 : ¬ (∀ c ∈ sel, c ∈ getAvailableAccessCodes store) := by
            intro hall
            have : (List.filter
                (fun c => !(List.contains (getAvailableAccessCodes store) c)) sel) = [] := by
              rw [List.filter_eq_nil_iff]
              intro c hc
              simp only [Bool.not_eq_true]
              exact (havailmem c).mpr (hall c hc)
            rw [this] at h3
            simp at h3
          constructor
          · constructor
            · intro _ hcond
              exact hc3 hcond.2.2.1
            · intro _
              exact ⟨_, rfl, rfl⟩
          · intro hcond
            exact absurd hcond.2.2.1 hc3
        · rw [if_neg h3]
          have hc3 : ∀ c ∈ sel, c ∈ getAvailableAccessCodes store := by
            intro c hc
            by_contra hcc
            have hmem : c ∈ List.filter
                (fun c => !(List.contains (getAvailableAccessCodes store) c)) sel := by
              rw [List.mem_filter]
              refine ⟨hc, ?_⟩
              simpa [List.contains] using hcc
            apply h3
            exact List.length_pos.mpr (fun hnil => by rw [hnil] at hmem; cases hmem)
          by_cases h4 : 0 < (duplicateEntries sel).length
          · rw [if_pos h4]
            have hc4 : ¬ sel.Nodup := by
              intro hnd
              have := (duplicateEntries_eq_nil_iff sel).mpr hnd
              rw [this] at h4
              simp at h4
            constructor
            · constructor
              · intro _ hcond
                exact hc4 hcond.2.2.2
              · intro _
                exact ⟨_, rfl, rfl⟩
            · intro hcond
              exact absurd hcond.2.2.2 hc4
          · rw [if_neg h4]
            have hc4 : sel.Nodup := by
              apply (duplicateEntries_eq_nil_iff sel).mp
              cases hd : duplicateEntries sel with
              | nil => rfl
              | cons x xs => rw [hd] at h4; simp at h4
            constructor
            · constructor
              · rintro ⟨e, he, _⟩
                cases he
              · intro hcond
                exact absurd ⟨by simpa using h1, hc2, hc3, hc4⟩ hcond
            · intro _
              rfl
    · rw [if_pos (by simp [h1])]
      have hc1 : ¬ (sel.length = count) := by simpa using h1
      constructor
      · constructor
        · intro _ hcond
          exact hc1 hcond.1
        · intro _
          exact ⟨_, rfl, rfl⟩
      · intro hcond
        exact absurd hcond.1 hc1
  · intro h
    unfold assignAccessCodes autoAssignAccessCodes
    rw [if_pos h]

/-- Witness for C8 (amended) at concrete stores: a duplicate explicit
selection fails, a valid explicit selection succeeds, and auto-assignment
on an exhausted pool fails with requested and available counts. -/
theorem allocate_validation_witness :
    (∃ e, assignAccessCodes
      [{ guid := "a", stackArn := none, stackName := none, stackId := none,
         status := AVAILABLE, createdAt := none, updatedAt := "t0",
         outputs := none, lastSyncAt := none, syncError := none }] 2
      (some ["a", "a"]) = .error e ∧ isInvalidSelection e = true) ∧
    assignAccessCodes
      [{ guid := "a", stackArn := none, stackName := none, stackId := none,
         status := AVAILABLE, createdAt := none, updatedAt := "t0",
         outputs := none, lastSyncAt := none, syncError := none }] 1
      (some ["a"]) = .ok ["a"] ∧
    assignAccessCodes
      [{ guid := "a", stackArn := none, stackName := none, stackId := none,
         status := AVAILABLE, createdAt := none, updatedAt := "t0",
         outputs := none, lastSyncAt := none, syncError := none }] 2 none =
      .error (.insufficientAccessCodes 2 1 1) := by
  refine ⟨?_, ?_, ?_⟩
  · exact ((allocate_validation
      [{ guid := "a", stackArn := none, stackName := none, stackId := none,
         status := AVAILABLE, createdAt := none, updatedAt := "t0",
         outputs := none, lastSyncAt := none, syncError := none }] 2
      ["a", "a"]).1 (by decide)).1.mpr (by
        intro hcond
        have := hcond.2.2.2
        simp at this)
  · exact ((allocate_validation
      [{ guid := "a", stackArn := none, stackName := none, stackId := none,
         status := AVAILABLE, createdAt := none, updatedAt := "t0",
         outputs := none, lastSyncAt := none, syncError := none }] 1
      ["a"]).1 (by decide)).2 (by
        refine ⟨rfl, ?_, ?_, by decide⟩
        · intro c hc
          rcases List.mem_singleton.mp hc with h
          subst h
          decide
        · intro c hc
          rcases List.mem_singleton.mp hc with h
          subst h
          decide)
  · exact (allocate_validation
      [{ guid := "a", stackArn := none, stackName := none, stackId := none,
         status := AVAILABLE, createdAt := none, updatedAt := "t0",
         outputs := none, lastSyncAt := none, syncError := none }] 2
      []).2.2 (by decide)

/-! ## Reconciliation idempotence -/

/-- Two records agree on every field except the bookkeeping timestamps
lastSyncAt and updatedAt. -/
def sameExceptSync (a b : StackRecord) : Prop :=
  a.guid = b.guid ∧ a.stackArn = b.stackArn ∧ a.stackName = b.stackName ∧
  a.stackId = b.stackId ∧ a.status = b.status ∧ a.createdAt = b.createdAt ∧
  a.outputs = b.outputs ∧ a.syncError = b.syncError

theorem sameExceptSync_refl (x : StackRecord) : sameExceptSync x x := by
  simp [sameExceptSync]

theorem sameExceptSync_symm {x y : StackRecord} (h : sameExceptSync x y) :
    sameExceptSync y x := by
  obtain ⟨h1, h2, h3, h4, h5, h6, h7, h8⟩ := h
  exact ⟨h1.symm, h2.symm, h3.symm, h4.symm, h5.symm, h6.symm, h7.symm, h8.symm⟩

theorem sameExceptSync_lastSyncOnly (x : StackRecord) (n : String) :
    sameExceptSync (applyUpdate x (lastSyncOnlyUpdate n) n) x := by
  rw [applyUpdate_lastSyncOnly]
  exact ⟨rfl, rfl, rfl, rfl, rfl, rfl, rfl, rfl⟩

theorem syncDiff_flag_eq (x : StackRecord) (st : StackStatus)
    (nm sid ct : Option String)
    (os : List (Option String × Option String × Option String))
    (now : String) :
    (syncDiffUpdates x st nm sid ct os now).2 =
      (!(x.status == st) || !(x.stackName == nm) || !(x.stackId == sid) ||
       (x.createdAt.isNone && ct.isSome) ||
       ((st == CREATE_COMPLETE || st == UPDATE_COMPLETE) &&
         !(x.outputs.getD [] == convertCloudFormationOutputs os))) := rfl

theorem syncDiff_after (r : StackRecord) (st : StackStatus)
    (nm sid ct : Option String)
    (os : List (Option String × Option String × Option String))
    (n1 n2 : String) :
    (syncDiffUpdates (applyUpdate r (syncDiffUpdates r st nm sid ct os n1).1 n1)
      st nm sid ct os n2).2 = false := by
  have l1 : ((applyUpdate r (syncDiffUpdates r st nm sid ct os n1).1 n1).status
      == st) = true := by
    by_cases h : (r.status == st) = true
    · simp [syncDiffUpdates, applyUpdate, ovr, h]
    · simp [syncDiffUpdates, applyUpdate, ovr, h]
  have l2 : ((applyUpdate r (syncDiffUpdates r st nm sid ct os n1).1 n1).stackName
      == nm) = true := by
    by_cases h : (r.stackName == nm) = true
    · simp [syncDiffUpdates, applyUpdate, ovr, h]
    · simp [syncDiffUpdates, applyUpdate, ovr, h]
  have l3 : ((applyUpdate r (syncDiffUpdates r st nm sid ct os n1).1 n1).stackId
      == sid) = true := by
    by_cases h : (r.stackId == sid) = true
    · simp [syncDiffUpdates, applyUpdate, ovr, h]
    · simp [syncDiffUpdates, applyUpdate, ovr, h]
  have l4 : ((applyUpdate r (syncDiffUpdates r st nm sid ct os n1).1 n1).createdAt.isNone
      && ct.isSome) = false := by
    cases hcr : r.createdAt with
    | some t0 => simp [syncDiffUpdates, applyUpdate, ovr, hcr]
    | none =>
      cases hct : ct with
      | none => simp [syncDiffUpdates, applyUpdate, ovr, hcr, hct]
      | some t => simp [syncDiffUpdates, applyUpdate, ovr, hcr, hct]
  have l5 : ((st == CREATE_COMPLETE || st == UPDATE_COMPLETE) &&
      !((applyUpdate r (syncDiffUpdates r st nm sid ct os n1).1 n1).outputs.getD []
        == convertCloudFormationOutputs os)) = false := by
    by_cases hcc : (st == CREATE_COMPLETE || st == UPDATE_COMPLETE) = true
    · by_cases hout : (r.outputs.getD [] == convertCloudFormationOutputs os) = true
      · simp [syncDiffUpdates, applyUpdate, ovr, hcc, hout]
      · simp [syncDiffUpdates, applyUpdate, ovr, hcc, hout]
    · simp [hcc]
  rw [syncDiff_flag_eq, l1, l2, l3, l4, l5]
  rfl

theorem syncDiff_flag_lastSyncOnly (r : StackRecord) (st : StackStatus)
    (nm sid ct : Option String)
    (os : List (Option String × Option String × Option String))
    (n1 n2 : String)
    (h : (syncDiffUpdates r st nm sid ct os n1).2 = false) :
    (syncDiffUpdates (applyUpdate r (lastSyncOnlyUpdate n1) n1)
      st nm sid ct os n2).2 = false := by
  rw [applyUpdate_lastSyncOnly]
  simpa [syncDiffUpdates] using h

/-- Second reconciliation of a record against an unchanged describe result
changes nothing beyond the bookkeeping timestamps. -/
theorem syncStackRecord_second_pass (r : StackRecord) (d : DescribeResult)
    (n1 n2 : String) :
    sameExceptSync ((syncStackRecord ((syncStackRecord r d n1).1) d n2).1)
      ((syncStackRecord r d n1).1) := by
  cases harn : r.stackArn with
  | none =>
    unfold syncStackRecord
    rw [harn]
    dsimp only
    rw [harn]
    exact sameExceptSync_refl r
  | some a =>
    cases d with
    | describeFailed m =>
      have h1 : (syncStackRecord r (.describeFailed m) n1).1 =
          applyUpdate r
            { UpdateSpec.empty with
                syncError := some (some m), lastSyncAt := some (some n1) } n1 := by
        unfold syncStackRecord
        rw [harn]
      rw [h1]
      have harn1 : (applyUpdate r
          { UpdateSpec.empty with
              syncError := some (some m), lastSyncAt := some (some n1) } n1).stackArn =
          some a := by
        simp [applyUpdate, ovr, UpdateSpec.empty, harn]
      unfold syncStackRecord
      rw [harn1]
      exact ⟨rfl, rfl, rfl, rfl, rfl, rfl, rfl, rfl⟩
    | notFound =>
      by_cases hs : (r.status == AVAILABLE) = true
      · have h1 : (syncStackRecord r .notFound n1).1 =
            applyUpdate r (lastSyncOnlyUpdate n1) n1 := by
          unfold syncStackRecord
          rw [harn]
          dsimp only
          rw [if_neg (by simp [hs])]
        rw [h1]
        have harn1 : (applyUpdate r (lastSyncOnlyUpdate n1) n1).stackArn = some a := by
          rw [applyUpdate_lastSyncOnly, harn]
        have hs1 : ((applyUpdate r (lastSyncOnlyUpdate n1) n1).status == AVAILABLE) = true := by
          rw [applyUpdate_lastSyncOnly]
          exact hs
        unfold syncStackRecord
        rw [harn1]
        dsimp only
        rw [if_neg (by simp [hs1])]
        exact sameExceptSync_lastSyncOnly _ n2
      · have h1 : (syncStackRecord r .notFound n1).1 =
            applyUpdate r (syncResetUpdates n1) n1 := by
          unfold syncStackRecord
          rw [harn]
          dsimp only
          rw [if_pos (by simp [hs])]
        rw [h1]
        have harn1 : (applyUpdate r (syncResetUpdates n1) n1).stackArn = none := by
          rw [applyUpdate_syncReset]
        unfold syncStackRecord
        rw [harn1]
        exact sameExceptSync_refl _
    | found st nm sid ct os =>
      by_cases hdc : (st == DELETE_COMPLETE) = true
      · have h1 : (syncStackRecord r (.found st nm sid ct os) n1).1 =
            applyUpdate r (syncResetUpdates n1) n1 := by
          unfold syncStackRecord
          rw [harn]
          dsimp only
          rw [if_pos hdc]
        rw [h1]
        have harn1 : (applyUpdate r (syncResetUpdates n1) n1).stackArn = none := by
          rw [applyUpdate_syncReset]
        unfold syncStackRecord
        rw [harn1]
        exact sameExceptSync_refl _
      · by_cases hch : (syncDiffUpdates r st nm sid ct os n1).2 = true
        · have h1 : (syncStackRecord r (.found st nm sid ct os) n1).1 =
              applyUpdate r (syncDiffUpdates r st nm sid ct os n1).1 n1 := by
            unfold syncStackRecord
            rw [harn]
            dsimp only
            rw [if_neg (by simp [hdc]), if_pos hch]
          rw [h1]
          have harn1 : (applyUpdate r (syncDiffUpdates r st nm sid ct os n1).1 n1).stackArn =
              some a := by
            simp [applyUpdate, syncDiff_stackArn, ovr, harn]
          have hflag := syncDiff_after r st nm sid ct os n1 n2
          unfold syncStackRecord
          rw [harn1]
          dsimp only
          rw [if_neg (by simp [hdc]), if_neg (by simp [hflag])]
          exact sameExceptSync_lastSyncOnly _ n2
        · have h1 : (syncStackRecord r (.found st nm sid ct os) n1).1 =
              applyUpdate r (lastSyncOnlyUpdate n1) n1 := by
            unfold syncStackRecord
            rw [harn]
            dsimp only
            rw [if_neg (by simp [hdc]), if_neg hch]
          rw [h1]
          have harn1 : (applyUpdate r (lastSyncOnlyUpdate n1) n1).stackArn = some a := by
            rw [applyUpdate_lastSyncOnly, harn]
          have hflag := syncDiff_flag_lastSyncOnly r st nm sid ct os n1 n2
            (by simpa using hch)
          unfold syncStackRecord
          rw [harn1]
          dsimp only
          rw [if_neg (by simp [hdc]), if_neg (by simp [hflag])]
          exact sameExceptSync_lastSyncOnly _ n2

theorem forall₂_sameExceptSync_refl (l : List StackRecord) :
    List.Forall₂ sameExceptSync l l := by
  induction l with
  | nil => constructor
  | cons x xs ih => exact List.Forall₂.cons (sameExceptSync_refl x) ih

theorem pass_stable (store : Store) (view : String → DescribeResult)
    (n1 n2 : String) :
    List.Forall₂ sameExceptSync (syncStorePass store view n1)
      (syncStorePass (syncStorePass store view n1) view n2) := by
  unfold syncStorePass
  rw [List.map_map]
  induction store with
  | nil => constructor
  | cons r rest ih =>
    simp only [List.map_cons]
    refine List.Forall₂.cons ?_ ih
    by_cases ha : (r.status == AVAILABLE) = true
    · simp only [Function.comp, ha, if_true]
      exact sameExceptSync_refl r
    · simp only [Function.comp, ha, Bool.false_eq_true, if_false]
      by_cases ha1 : (((syncStackRecord r (view r.guid) n1).1).status == AVAILABLE) = true
      · rw [if_pos ha1]
        exact sameExceptSync_refl _
      · rw [if_neg ha1, syncStackRecord_guid]
        exact sameExceptSync_symm (syncStackRecord_second_pass r (view r.guid) n1 n2)

theorem syncAllStacks_store_eq (store : Store) (view : String → DescribeResult)
    (now : String) (rule : RuleState) (env : TriggerEnv) (ro : Bool) :
    (syncAllStacks store view now rule env ro).store =
      (if ((getNonAvailableStackRecords store).length == 0) = true then store
       else syncStorePass store view now) := by
  unfold syncAllStacks
  by_cases h0 : ((getNonAvailableStackRecords store).length == 0) = true
  · simp only [h0, if_true]
    split <;> rfl
  · simp only [h0, Bool.false_eq_true, if_false]
    split <;> rfl

/-- Counterexample for C6: a successful reconciliation of a record whose
fields already match the external state writes only lastSyncAt and leaves
a stale syncError in place, contradicting the claim that every successful
reconciliation leaves syncError absent. -/
theorem reconcile_syncError_counterexample :
    (syncStackRecord
      { guid := "a", stackArn := some "arn", stackName := some "n",
        stackId := some "i", status := CREATE_COMPLETE, createdAt := some "c",
        updatedAt := "t0", outputs := some [], lastSyncAt := some "t0",
        syncError := some "boom" }
      (.found CREATE_COMPLETE (some "n") (some "i") (some "c") []) "t2").2 =
      true ∧
    ((syncStackRecord
      { guid := "a", stackArn := some "arn", stackName := some "n",
        stackId := some "i", status := CREATE_COMPLETE, createdAt := some "c",
        updatedAt := "t0", outputs := some [], lastSyncAt := some "t0",
        syncError := some "boom" }
      (.found CREATE_COMPLETE (some "n") (some "i") (some "c") []) "t2").1).syncError =
      some "boom" := by
  exact ⟨rfl, rfl⟩

/-- Claim C6 (amended): running a reconciliation pass twice in a row with
no external state change produces no field changes beyond the bookkeeping
timestamps lastSyncAt and updatedAt on the second pass; and a successful
reconciliation of a record either changes none of the non-bookkeeping
fields (leaving any existing syncError in place, since the no-change path
writes only lastSyncAt) or writes an update that clears syncError. -/
theorem reconcile_idem (store : Store) (view : String → DescribeResult)
    (n1 n2 : String) (rule1 rule2 : RuleState) (env1 env2 : TriggerEnv)
    (ro1 ro2 : Bool) :
    List.Forall₂ sameExceptSync
      (syncAllStacks store view n1 rule1 env1 ro1).store
      (syncAllStacks (syncAllStacks store view n1 rule1 env1 ro1).store
        view n2 rule2 env2 ro2).store ∧
    (∀ (r : StackRecord) (d : DescribeResult) (n : String),
      (syncStackRecord r d n).2 = true →
      sameExceptSync ((syncStackRecord r d n).1) r ∨
        ((syncStackRecord r d n).1).syncError = none) := by
  constructor
  · rw [syncAllStacks_store_eq, syncAllStacks_store_eq]
    by_cases h0 : ((getNonAvailableStackRecords store).length == 0) = true
    · rw [if_pos h0, if_pos h0]
      exact forall₂_sameExceptSync_refl store
    · rw [if_neg h0]
      by_cases h1 : ((getNonAvailableStackRecords
          (syncStorePass store view n1)).length == 0) = true
      · rw [if_pos h1]
        exact forall₂_sameExceptSync_refl _
      · rw [if_neg h1]
        exact pass_stable store view n1 n2
  · intro r d n hsucc
    cases harn : r.stackArn with
    | none =>
      left
      unfold syncStackRecord
      rw [harn]
      exact sameExceptSync_refl r
    | some a =>
      cases d with
      | describeFailed m =>
        exfalso
        unfold syncStackRecord at hsucc
        rw [harn] at hsucc
        simp at hsucc
      | notFound =>
        by_cases hs : (r.status == AVAILABLE) = true
        · left
          unfold syncStackRecord
          rw [harn]
          dsimp only
          rw [if_neg (by simp [hs])]
          exact sameExceptSync_lastSyncOnly r n
        · right
          unfold syncStackRecord
          rw [harn]
          dsimp only
          rw [if_pos (by simp [hs]), applyUpdate_syncReset]
      | found st nm sid ct os =>
        by_cases hdc : (st == DELETE_COMPLETE) = true
        · right
          unfold syncStackRecord
          rw [harn]
          dsimp only
          rw [if_pos hdc, applyUpdate_syncReset]
        · by_cases hch : (syncDiffUpdates r st nm sid ct os n).2 = true
          · right
            unfold syncStackRecord
            rw [harn]
            dsimp only
            rw [if_neg (by simp [hdc]), if_pos hch]
            rfl
          · left
            unfold syncStackRecord
            rw [harn]
            dsimp only
            rw [if_neg (by simp [hdc]), if_neg hch]
            exact sameExceptSync_lastSyncOnly r n

/-- Witness for C6 (amended) at a one-record store: the second pass after a
reset pass leaves the store unchanged up to the bookkeeping timestamps,
and a reset reconciliation clears syncError. -/
theorem reconcile_idem_witness :
    List.Forall₂ sameExceptSync
      (syncAllStacks
        [{ guid := "a", stackArn := some "arn", stackName := some "n",
           stackId := some "i", status := DELETE_IN_PROGRESS,
           createdAt := some "c", updatedAt := "t0", outputs := none,
           lastSyncAt := none, syncError := none }]
        (fun _ => DescribeResult.notFound) "t1" RuleState.ENABLED
        ⟨true, true⟩ true).store
      (syncAllStacks (syncAllStacks
        [{ guid := "a", stackArn := some "arn", stackName := some "n",
           stackId := some "i", status := DELETE_IN_PROGRESS,
           createdAt := some "c", updatedAt := "t0", outputs := none,
           lastSyncAt := none, syncError := none }]
        (fun _ => DescribeResult.notFound) "t1" RuleState.ENABLED
        ⟨true, true⟩ true).store
        (fun _ => DescribeResult.notFound) "t2" RuleState.ENABLED
        ⟨true, true⟩ true).store ∧
    ((syncStackRecord
      { guid := "a", stackArn := some "arn", stackName := some "n",
        stackId := some "i", status := DELETE_IN_PROGRESS,
        createdAt := some "c", updatedAt := "t0", outputs := none,
        lastSyncAt := none, syncError := some "old" }
      DescribeResult.notFound "t1").2 = true →
      sameExceptSync ((syncStackRecord
        { guid := "a", stackArn := some "arn", stackName := some "n",
          stackId := some "i", status := DELETE_IN_PROGRESS,
          createdAt := some "c", updatedAt := "t0", outputs := none,
          lastSyncAt := none, syncError := some "old" }
        DescribeResult.notFound "t1").1)
        { guid := "a", stackArn := some "arn", stackName := some "n",
          stackId := some "i", status := DELETE_IN_PROGRESS,
          createdAt := some "c", updatedAt := "t0", outputs := none,
          lastSyncAt := none, syncError := some "old" } ∨
      ((syncStackRecord
        { guid := "a", stackArn := some "arn", stackName := some "n",
          stackId := some "i", status := DELETE_IN_PROGRESS,
          createdAt := some "c", updatedAt := "t0", outputs := none,
          lastSyncAt := none, syncError := some "old" }
        DescribeResult.notFound "t1").1).syncError = none) := by
  constructor
  · exact (reconcile_idem
      [{ guid := "a", stackArn := some "arn", stackName := some "n",
         stackId := some "i", status := DELETE_IN_PROGRESS,
         createdAt := some "c", updatedAt := "t0", outputs := none,
         lastSyncAt := none, syncError := none }]
      (fun _ => DescribeResult.notFound) "t1" "t2" RuleState.ENABLED
      RuleState.ENABLED ⟨true, true⟩ ⟨true, true⟩ true true).1
  · exact (reconcile_idem [] (fun _ => DescribeResult.notFound) "t1" "t2"
      RuleState.ENABLED RuleState.ENABLED ⟨true, true⟩ ⟨true, true⟩
      true true).2 _ _ "t1"

/-! ## Trigger disable policy -/

theorem ensureRuleDisabled_already_disabled (env : TriggerEnv) :
    ensureRuleDisabled RuleState.DISABLED env = (RuleState.DISABLED, false) := by
  unfold ensureRuleDisabled
  cases h : env.describeRuleOk <;> simp [h]

theorem ensureRuleDisabled_success (rule : RuleState) (env : TriggerEnv)
    (h1 : env.describeRuleOk = true) (h2 : env.disableRuleOk = true) :
    (ensureRuleDisabled rule env).1 = RuleState.DISABLED := by
  unfold ensureRuleDisabled
  rw [h1]
  by_cases hr : (rule == RuleState.DISABLED) = true
  · simp [hr]
    simpa using hr
  · simp [hr, h2]

theorem syncAllStacks_rule_eq (store : Store) (view : String → DescribeResult)
    (now : String) (rule : RuleState) (env : TriggerEnv) (ro : Bool) :
    (syncAllStacks store view now rule env ro).rule =
      (if (ro && ((getNonAvailableStackRecords
          (if ((getNonAvailableStackRecords store).length == 0) = true then store
           else syncStorePass store view now)).length == 0)) = true
       then (ensureRuleDisabled rule env).1 else rule) := by
  unfold syncAllStacks
  by_cases h0 : ((getNonAvailableStackRecords store).length == 0) = true
  · rw [if_pos h0, if_pos h0]
    by_cases hc : (ro && (getNonAvailableStackRecords store).length == 0) = true
    · rw [if_pos hc, if_pos hc]
    · rw [if_neg hc, if_neg hc]
  · rw [if_neg h0, if_neg h0]
    by_cases hc : (ro && (getNonAvailableStackRecords
        (syncStorePass store view now)).length == 0) = true
    · rw [if_pos hc, if_pos hc]
    · rw [if_neg hc, if_neg hc]

theorem syncAllStacks_invoked_eq (store : Store)
    (view : String → DescribeResult) (now : String) (rule : RuleState)
    (env : TriggerEnv) (ro : Bool) :
    (syncAllStacks store view now rule env ro).disableInvoked =
      (if (ro && ((getNonAvailableStackRecords
          (if ((getNonAvailableStackRecords store).length == 0) = true then store
           else syncStorePass store view now)).length == 0)) = true
       then (ensureRuleDisabled rule env).2 else false) := by
  unfold syncAllStacks
  by_cases h0 : ((getNonAvailableStackRecords store).length == 0) = true
  · rw [if_pos h0, if_pos h0]
    by_cases hc : (ro && (getNonAvailableStackRecords store).length == 0) = true
    · rw [if_pos hc, if_pos hc]
    · rw [if_neg hc, if_neg hc]
  · rw [if_neg h0, if_neg h0]
    by_cases hc : (ro && (getNonAvailableStackRecords
        (syncStorePass store view now)).length == 0) = true
    · rw [if_pos hc, if_pos hc]
    · rw [if_neg hc, if_neg hc]

theorem syncAllStacks_result_eq (store : Store)
    (view : String → DescribeResult) (now : String) (rule : RuleState)
    (env : TriggerEnv) (ro : Bool) :
    (syncAllStacks store view now rule env ro).result =
      (if ((getNonAvailableStackRecords store).length == 0) = true then
        (⟨0, 0, 0, []⟩ : SyncResult)
       else syncResultOf store view now) := by
  unfold syncAllStacks
  by_cases h0 : ((getNonAvailableStackRecords store).length == 0) = true
  · rw [if_pos h0, if_pos h0]
    split <;> rfl
  · rw [if_neg h0, if_neg h0]
    split <;> rfl

theorem sync_disable_only_when_empty (store : Store)
    (view : String → DescribeResult) (now : String) (rule : RuleState)
    (env : TriggerEnv) (ro : Bool)
    (h : (syncAllStacks store view now rule env ro).disableInvoked = true) :
    (getNonAvailableStackRecords
      (syncAllStacks store view now rule env ro).store).length = 0 := by
  rw [syncAllStacks_invoked_eq] at h
  rw [syncAllStacks_store_eq]
  by_cases hc : (ro && ((getNonAvailableStackRecords
      (if ((getNonAvailableStackRecords store).length == 0) = true then store
       else syncStorePass store view now)).length == 0)) = true
  · rcases Bool.and_eq_true_iff.mp hc with ⟨_, h2⟩
    simpa using h2
  · rw [if_neg hc] at h
    cases h

theorem sync_trigger_zero (store : Store) (view : String → DescribeResult)
    (now : String) (rule : RuleState) (env : TriggerEnv)
    (h : (getNonAvailableStackRecords
      (syncAllStacks store view now rule env true).store).length = 0) :
    (syncAllStacks store view now rule env true).rule =
      (ensureRuleDisabled rule env).1 ∧
    (syncAllStacks store view now rule env true).disableInvoked =
      (ensureRuleDisabled rule env).2 := by
  rw [syncAllStacks_store_eq] at h
  have hc : (true && ((getNonAvailableStackRecords
      (if ((getNonAvailableStackRecords store).length == 0) = true then store
       else syncStorePass store view now)).length == 0)) = true := by
    rw [Bool.true_and, h]
    rfl
  rw [syncAllStacks_rule_eq, syncAllStacks_invoked_eq, if_pos hc, if_pos hc]
  exact ⟨rfl, rfl⟩

theorem sync_trigger_nonzero (store : Store) (view : String → DescribeResult)
    (now : String) (rule : RuleState) (env : TriggerEnv)
    (h : (getNonAvailableStackRecords
      (syncAllStacks store view now rule env true).store).length ≠ 0) :
    (syncAllStacks store view now rule env true).rule = rule ∧
    (syncAllStacks store view now rule env true).disableInvoked = false := by
  rw [syncAllStacks_store_eq] at h
  have hc : (true && ((getNonAvailableStackRecords
      (if ((getNonAvailableStackRecords store).length == 0) = true then store
       else syncStorePass store view now)).length == 0)) = false := by
    rw [Bool.true_and]
    exact beq_eq_false_iff_ne.mpr h
  rw [syncAllStacks_rule_eq, syncAllStacks_invoked_eq,
    if_neg (by rw [hc]; simp), if_neg (by rw [hc]; simp)]
  exact ⟨rfl, rfl⟩

theorem sync_no_disable_when_disabled (store : Store)
    (view : String → DescribeResult) (now : String) (env : TriggerEnv)
    (ro : Bool) :
    (syncAllStacks store view now RuleState.DISABLED env ro).disableInvoked =
      false := by
  rw [syncAllStacks_invoked_eq]
  by_cases hc : (ro && ((getNonAvailableStackRecords
      (if ((getNonAvailableStackRecords store).length == 0) = true then store
       else syncStorePass store view now)).length == 0)) = true
  · rw [if_pos hc, ensureRuleDisabled_already_disabled]
  · rw [if_neg hc]

theorem sync_disable_success (store : Store) (view : String → DescribeResult)
    (now : String) (rule : RuleState) (env : TriggerEnv) (ro : Bool)
    (h1 : env.describeRuleOk = true) (h2 : env.disableRuleOk = true)
    (h : (syncAllStacks store view now rule env ro).disableInvoked = true) :
    (syncAllStacks store view now rule env ro).rule = RuleState.DISABLED := by
  rw [syncAllStacks_invoked_eq] at h
  rw [syncAllStacks_rule_eq]
  by_cases hc : (ro && ((getNonAvailableStackRecords
      (if ((getNonAvailableStackRecords store).length == 0) = true then store
       else syncStorePass store view now)).length == 0)) = true
  · rw [if_pos hc]
    exact ensureRuleDisabled_success rule env h1 h2
  · rw [if_neg hc] at h
    cases h

theorem sync_best_effort (store : Store) (view : String → DescribeResult)
    (now : String) (rule : RuleState) (env env' : TriggerEnv) (ro : Bool) :
    (syncAllStacks store view now rule env ro).store =
      (syncAllStacks store view now rule env' ro).store ∧
    (syncAllStacks store view now rule env ro).result =
      (syncAllStacks store view now rule env' ro).result := by
  rw [syncAllStacks_store_eq, syncAllStacks_store_eq,
    syncAllStacks_result_eq, syncAllStacks_result_eq]
  exact ⟨rfl, rfl⟩



/-- Claim C7: Trigger disable policy. After a reconciliation pass, the
DisableRuleCommand is only ever sent when the re-fetched count of
non-AVAILABLE records is zero; when the re-fetch succeeds, a zero count
leads to the ensureRuleDisabled behaviour and a non-zero count leaves the
rule untouched with no command sent; an already-DISABLED rule is never
sent another disable command (idempotent no-op); a successful disable
leaves the rule DISABLED, so repeated zero-count passes only hit the
no-op; and the pass outcome (store and sync summary) never depends on the
trigger environment, so a disable failure is never raised to the caller. -/
theorem trigger_disable_policy (store : Store) (view : String → DescribeResult)
    (now : String) (rule : RuleState) (env env' : TriggerEnv) (ro : Bool) :
    ((syncAllStacks store view now rule env ro).disableInvoked = true →
      (getNonAvailableStackRecords
        (syncAllStacks store view now rule env ro).store).length = 0) ∧
    ((getNonAvailableStackRecords
        (syncAllStacks store view now rule env true).store).length = 0 →
      (syncAllStacks store view now rule env true).rule =
        (ensureRuleDisabled rule env).1 ∧
      (syncAllStacks store view now rule env true).disableInvoked =
        (ensureRuleDisabled rule env).2) ∧
    ((getNonAvailableStackRecords
        (syncAllStacks store view now rule env true).store).length ≠ 0 →
      (syncAllStacks store view now rule env true).rule = rule ∧
      (syncAllStacks store view now rule env true).disableInvoked = false) ∧
    ((syncAllStacks store view now RuleState.DISABLED env ro).disableInvoked =
      false) ∧
    (env.describeRuleOk = true → env.disableRuleOk = true →
      (syncAllStacks store view now rule env ro).disableInvoked = true →
      (syncAllStacks store view now rule env ro).rule = RuleState.DISABLED) ∧
    ((syncAllStacks store view now rule env ro).store =
      (syncAllStacks store view now rule env' ro).store ∧
     (syncAllStacks store view now rule env ro).result =
      (syncAllStacks store view now rule env' ro).result) :=
  ⟨fun h => sync_disable_only_when_empty store view now rule env ro h,
   fun h => sync_trigger_zero store view now rule env h,
   fun h => sync_trigger_nonzero store view now rule env h,
   sync_no_disable_when_disabled store view now env ro,
   fun h1 h2 h => sync_disable_success store view now rule env ro h1 h2 h,
   sync_best_effort store view now rule env env' ro⟩

/-- Witness for C7: on an all-AVAILABLE store a pass with a working trigger
environment disables the rule, and a pass starting from a DISABLED rule
sends no command. -/
theorem trigger_disable_policy_witness :
    (syncAllStacks
      [{ guid := "a", stackArn := none, stackName := none, stackId := none,
         status := AVAILABLE, createdAt := none, updatedAt := "t0",
         outputs := none, lastSyncAt := none, syncError := none }]
      (fun _ => DescribeResult.notFound) "t1" RuleState.ENABLED
      ⟨true, true⟩ true).rule =
      (ensureRuleDisabled RuleState.ENABLED ⟨true, true⟩).1 ∧
    (syncAllStacks
      [{ guid := "a", stackArn := none, stackName := none, stackId := none,
         status := AVAILABLE, createdAt := none, updatedAt := "t0",
         outputs := none, lastSyncAt := none, syncError := none }]
      (fun _ => DescribeResult.notFound) "t2" RuleState.DISABLED
      ⟨true, true⟩ true).disableInvoked = false := by
  constructor
  · exact ((trigger_disable_policy
      [{ guid := "a", stackArn := none, stackName := none, stackId := none,
         status := AVAILABLE, createdAt := none, updatedAt := "t0",
         outputs := none, lastSyncAt := none, syncError := none }]
      (fun _ => DescribeResult.notFound) "t1" RuleState.ENABLED
      ⟨true, true⟩ ⟨true, true⟩ true).2.1 (by decide)).1
  · exact (trigger_disable_policy
      [{ guid := "a", stackArn := none, stackName := none, stackId := none,
         status := AVAILABLE, createdAt := none, updatedAt := "t0",
         outputs := none, lastSyncAt := none, syncError := none }]
      (fun _ => DescribeResult.notFound) "t2" RuleState.DISABLED
      ⟨true, true⟩ ⟨true, true⟩ true).2.2.2.1

/-! ## Lemmas about the deployment loop -/

theorem deployLoop_lookup_not_mem (stackCount : Nat) (cOk pOk uOk : Nat → Bool)
    (sidOf : Nat → String) (pfx ts now : String) :
    ∀ (codes : List String) (i succ failed : Nat) (store : Store)
      (acc : List DeployedStack) (g : String), g ∉ codes →
      getStackRecord (deployLoop stackCount cOk pOk uOk sidOf pfx ts now
        codes i succ failed store acc).store g = getStackRecord store g := by
  intro codes
  induction codes with
  | nil =>
    intro i succ failed store acc g _
    rfl
  | cons c rest ih =>
    intro i succ failed store acc g hg
    have hgc : c ≠ g := fun h => hg (h ▸ List.mem_cons_self c rest)
    have hgrest : g ∉ rest := fun h => hg (List.mem_cons_of_mem c h)
    simp only [deployLoop]
    by_cases h1 : cOk i = true
    · simp only [h1, if_true]
      by_cases h2 : pOk i = true
      · simp only [h2, if_true]
        rw [ih _ _ _ _ _ g hgrest]
        exact getStackRecord_put_ne store _ g hgc
      · simp only [h2, Bool.false_eq_true, if_false]
        exact ih _ _ _ _ _ g hgrest
    · simp only [h1, Bool.false_eq_true, if_false]
      by_cases h3 : stackCount < 2 * (failed + 1)
      · rw [if_pos h3]
        by_cases h2 : uOk i = true
        · simp only [h2, if_true]
          exact getStackRecord_update_ne store c g deployFailureReset now hgc
        · simp only [h2, Bool.false_eq_true, if_false]
      · rw [if_neg h3]
        by_cases h2 : uOk i = true
        · simp only [h2, if_true]
          rw [ih _ _ _ _ _ g hgrest]
          exact getStackRecord_update_ne store c g deployFailureReset now hgc
        · simp only [h2, Bool.false_eq_true, if_false]
          exact ih _ _ _ _ _ g hgrest

theorem deployLoop_lookup_at (stackCount : Nat) (cOk pOk uOk : Nat → Bool)
    (sidOf : Nat → String) (pfx ts now : String) :
    ∀ (codes : List String) (i succ failed : Nat) (store : Store)
      (acc : List DeployedStack), codes.Nodup →
      (deployLoop stackCount cOk pOk uOk sidOf pfx ts now
        codes i succ failed store acc).aborted = none →
      ∀ (j : Nat) (hj : j < codes.length),
      getStackRecord (deployLoop stackCount cOk pOk uOk sidOf pfx ts now
        codes i succ failed store acc).store (codes.get ⟨j, hj⟩) =
        (if cOk (i + j) then
          (if pOk (i + j) then
            some (deployRecord (codes.get ⟨j, hj⟩) (i + j) sidOf pfx ts now)
           else getStackRecord store (codes.get ⟨j, hj⟩))
         else
          (if uOk (i + j) then
            Option.map (fun r => applyUpdate r deployFailureReset now)
              (getStackRecord store (codes.get ⟨j, hj⟩))
           else getStackRecord store (codes.get ⟨j, hj⟩))) := by
  intro codes
  induction codes with
  | nil =>
    intro i succ failed store acc _ _ j hj
    cases hj
  | cons c rest ih =>
    intro i succ failed store acc hnd hab j hj
    have hcnotin : c ∉ rest := (List.nodup_cons.mp hnd).1
    have hndrest : rest.Nodup := (List.nodup_cons.mp hnd).2
    cases j with
    | zero =>
      simp only [List.get]
      simp only [deployLoop] at hab ⊢
      by_cases h1 : cOk i = true
      · simp only [h1, if_true, Nat.add_zero] at hab ⊢
        by_cases h2 : pOk i = true
        · simp only [h2, if_true] at hab ⊢
          rw [deployLoop_lookup_not_mem _ _ _ _ _ _ _ _ _ _ _ _ _ _ _ hcnotin]
          exact getStackRecord_put_self store (deployRecord c i sidOf pfx ts now)
        · simp only [h2, Bool.false_eq_true, if_false] at hab ⊢
          rw [deployLoop_lookup_not_mem _ _ _ _ _ _ _ _ _ _ _ _ _ _ _ hcnotin]
      · simp only [h1, Bool.false_eq_true, if_false, Nat.add_zero] at hab ⊢
        by_cases h3 : stackCount < 2 * (failed + 1)
        · rw [if_pos h3] at hab
          simp at hab
        · rw [if_neg h3] at hab ⊢
          by_cases h2 : uOk i = true
          · simp only [h2, if_true] at hab ⊢
            rw [deployLoop_lookup_not_mem _ _ _ _ _ _ _ _ _ _ _ _ _ _ _ hcnotin]
            exact getStackRecord_update_self store c deployFailureReset now
          · simp only [h2, Bool.false_eq_true, if_false] at hab ⊢
            rw [deployLoop_lookup_not_mem _ _ _ _ _ _ _ _ _ _ _ _ _ _ _ hcnotin]
    | succ k =>
      have hk : k < rest.length := by
        simpa using hj
      have hget : (c :: rest).get ⟨k + 1, hj⟩ = rest.get ⟨k, hk⟩ := rfl
      have hmem : rest.get ⟨k, hk⟩ ∈ rest := List.get_mem rest k hk
      have hne : c ≠ rest.get ⟨k, hk⟩ := by
        intro h
        exact hcnotin (h ▸ hmem)
      have hidx : i + (k + 1) = (i + 1) + k := by omega
      rw [hget, hidx]
      simp only [deployLoop] at hab ⊢
      by_cases h1 : cOk i = true
      · simp only [h1, if_true] at hab ⊢
        by_cases h2 : pOk i = true
        · simp only [h2, if_true] at hab ⊢
          rw [ih _ _ _ _ _ hndrest hab k hk]
          rw [getStackRecord_put_ne _ _ _ hne]
        · simp only [h2, Bool.false_eq_true, if_false] at hab ⊢
          exact ih _ _ _ _ _ hndrest hab k hk
      · simp only [h1, Bool.false_eq_true, if_false] at hab ⊢
        by_cases h3 : stackCount < 2 * (failed + 1)
        · rw [if_pos h3] at hab
          simp at hab
        · rw [if_neg h3] at hab ⊢
          by_cases h2 : uOk i = true
          · simp only [h2, if_true] at hab ⊢
            rw [ih _ _ _ _ _ hndrest hab k hk]
            rw [getStackRecord_update_ne _ _ _ _ _ hne]
          · simp only [h2, Bool.false_eq_true, if_false] at hab ⊢
            exact ih _ _ _ _ _ hndrest hab k hk

theorem deployLoop_entries (stackCount : Nat) (cOk pOk uOk : Nat → Bool)
    (sidOf : Nat → String) (pfx ts now : String) :
    ∀ (codes : List String) (i succ failed : Nat) (store : Store)
      (acc : List DeployedStack),
      (deployLoop stackCount cOk pOk uOk sidOf pfx ts now
        codes i succ failed store acc).aborted = none →
      (deployLoop stackCount cOk pOk uOk sidOf pfx ts now
        codes i succ failed store acc).deployedStacks =
        acc.reverse ++ deployEntries cOk sidOf pfx ts now codes i := by
  intro codes
  induction codes with
  | nil =>
    intro i succ failed store acc _
    simp [deployLoop, deployEntries]
  | cons c rest ih =>
    intro i succ failed store acc hab
    simp only [deployLoop, deployEntries] at hab ⊢
    by_cases h1 : cOk i = true
    · simp only [h1, if_true] at hab ⊢
      rw [ih _ _ _ _ _ hab]
      simp
    · simp only [h1, Bool.false_eq_true, if_false] at hab ⊢
      by_cases h3 : stackCount < 2 * (failed + 1)
      · rw [if_pos h3] at hab
        simp at hab
      · rw [if_neg h3] at hab ⊢
        rw [ih _ _ _ _ _ hab]
        simp

theorem deployLoop_abort_iff (stackCount : Nat) (cOk pOk uOk : Nat → Bool)
    (sidOf : Nat → String) (pfx ts now : String) :
    ∀ (codes : List String) (i succ failed : Nat) (store : Store)
      (acc : List DeployedStack), 2 * failed ≤ stackCount →
      ((deployLoop stackCount cOk pOk uOk sidOf pfx ts now
        codes i succ failed store acc).aborted.isSome = true ↔
        stackCount < 2 * (failed + failCount cOk i codes.length)) := by
  intro codes
  induction codes with
  | nil =>
    intro i succ failed store acc hle
    simp only [deployLoop, failCount]
    constructor
    · intro h
      simp at h
    · intro h
      omega
  | cons c rest ih =>
    intro i succ failed store acc hle
    simp only [deployLoop, List.length_cons, failCount]
    by_cases h1 : cOk i = true
    · simp only [h1, if_true]
      rw [ih _ _ _ _ _ hle]
      constructor
      · intro h
        omega
      · intro h
        omega
    · simp only [h1, Bool.false_eq_true, if_false]
      by_cases h3 : stackCount < 2 * (failed + 1)
      · rw [if_pos h3]
        constructor
        · intro _
          omega
        · intro _
          rfl
      · rw [if_neg h3]
        rw [ih _ _ _ _ _ (by omega)]
        constructor
        · intro h
          omega
        · intro h
          omega

theorem deployLoop_abort_total (stackCount : Nat) (cOk pOk uOk : Nat → Bool)
    (sidOf : Nat → String) (pfx ts now : String) :
    ∀ (codes : List String) (i succ failed : Nat) (store : Store)
      (acc : List DeployedStack) (f : DeployAbort),
      (deployLoop stackCount cOk pOk uOk sidOf pfx ts now
        codes i succ failed store acc).aborted = some f →
      f.total = stackCount ∧ stackCount < 2 * f.failed := by
  intro codes
  induction codes with
  | nil =>
    intro i succ failed store acc f h
    simp [deployLoop] at h
  | cons c rest ih =>
    intro i succ failed store acc f h
    simp only [deployLoop] at h
    by_cases h1 : cOk i = true
    · simp only [h1, if_true] at h
      exact ih _ _ _ _ _ f h
    · simp only [h1, Bool.false_eq_true, if_false] at h
      by_cases h3 : stackCount < 2 * (failed + 1)
      · rw [if_pos h3] at h
        simp only [Option.some.injEq] at h
        subst h
        exact ⟨rfl, h3⟩
      · rw [if_neg h3] at h
        exact ih _ _ _ _ _ f h

theorem deployEntries_length (cOk : Nat → Bool) (sidOf : Nat → String)
    (pfx ts now : String) :
    ∀ (codes : List String) (i : Nat),
      (deployEntries cOk sidOf pfx ts now codes i).length = codes.length := by
  intro codes
  induction codes with
  | nil => intro i; rfl
  | cons c rest ih =>
    intro i
    simp only [deployEntries, List.length_cons, ih]

theorem deployEntries_counts (cOk : Nat → Bool) (sidOf : Nat → String)
    (pfx ts now : String) :
    ∀ (codes : List String) (i : Nat),
      (List.filter (fun e => e.status == CREATE_FAILED)
        (deployEntries cOk sidOf pfx ts now codes i)).length =
        failCount cOk i codes.length ∧
      (List.filter (fun e => e.status == CREATE_IN_PROGRESS)
        (deployEntries cOk sidOf pfx ts now codes i)).length =
        codes.length - failCount cOk i codes.length := by
  intro codes
  induction codes with
  | nil =>
    intro i
    exact ⟨rfl, rfl⟩
  | cons c rest ih =>
    intro i
    have hfc : failCount cOk i (rest.length + 1) =
        (if cOk i then 0 else 1) + failCount cOk (i + 1) rest.length := rfl
    have hle : failCount cOk (i + 1) rest.length ≤ rest.length := by
      clear ih hfc
      induction rest generalizing i with
      | nil => exact Nat.le_refl 0
      | cons x xs ihr =>
        simp only [failCount, List.length_cons]
        have := ihr (i + 1)
        by_cases hx : cOk (i + 1) = true
        · simp only [hx, if_true]
          omega
        · simp only [hx, Bool.false_eq_true, if_false]
          omega
    rcases ih (i + 1) with ⟨ihf, ihs⟩
    by_cases h1 : cOk i = true
    · simp only [deployEntries, h1, if_true, List.filter_cons, List.length_cons,
        hfc]
      constructor
      · simp only [show ((⟨mkStackName pfx c ts i, sidOf i, c, CREATE_IN_PROGRESS,
          now⟩ : DeployedStack).status == CREATE_FAILED) = false from rfl,
          Bool.false_eq_true, if_false]
        simpa using ihf
      · simp only [show ((⟨mkStackName pfx c ts i, sidOf i, c, CREATE_IN_PROGRESS,
          now⟩ : DeployedStack).status == CREATE_IN_PROGRESS) = true from rfl,
          if_true, List.length_cons]
        rw [ihs]
        omega
    · simp only [deployEntries, h1, Bool.false_eq_true, if_false,
        List.filter_cons, List.length_cons, hfc]
      constructor
      · simp only [show ((⟨mkStackName pfx c ts i, "", c, CREATE_FAILED,
          now⟩ : DeployedStack).status == CREATE_FAILED) = true from rfl,
          if_true, List.length_cons]
        rw [ihf]
        omega
      · simp only [show ((⟨mkStackName pfx c ts i, "", c, CREATE_FAILED,
          now⟩ : DeployedStack).status == CREATE_IN_PROGRESS) = false from rfl,
          Bool.false_eq_true, if_false]
        rw [ihs]
        omega

theorem deployStacks_cases (store : Store) (stackCount maxPoolSize : Nat)
    (selected : Option (List String)) (cOk pOk uOk : Nat → Bool)
    (sidOf : Nat → String) (pfx ts now : String) (assigned : List String)
    (hc : stackCount ≠ 0) (hm : stackCount ≤ maxPoolSize)
    (hassign : assignAccessCodes store stackCount selected = .ok assigned) :
    (∀ f, (deployLoop stackCount cOk pOk uOk sidOf pfx ts now
        assigned 0 0 0 store []).aborted = some f →
      deployStacks store stackCount selected maxPoolSize cOk pOk uOk
        sidOf pfx ts now =
        ((deployLoop stackCount cOk pOk uOk sidOf pfx ts now
          assigned 0 0 0 store []).store,
         .error (.deploymentBatchFailed f))) ∧
    ((deployLoop stackCount cOk pOk uOk sidOf pfx ts now
        assigned 0 0 0 store []).aborted = none →
      deployStacks store stackCount selected maxPoolSize cOk pOk uOk
        sidOf pfx ts now =
        ((deployLoop stackCount cOk pOk uOk sidOf pfx ts now
          assigned 0 0 0 store []).store,
         .ok ((deployLoop stackCount cOk pOk uOk sidOf pfx ts now
            assigned 0 0 0 store []).deployedStacks, assigned))) := by
  constructor
  · intro f hf
    unfold deployStacks
    rw [if_neg (by simp [hc]), if_neg (Nat.not_lt.mpr hm), hassign]
    dsimp only
    rw [hf]
  · intro hf
    unfold deployStacks
    rw [if_neg (by simp [hc]), if_neg (Nat.not_lt.mpr hm), hassign]
    dsimp only
    rw [hf]

theorem deployEntries_get (cOk : Nat → Bool) (sidOf : Nat → String)
    (pfx ts now : String) :
    ∀ (codes : List String) (i : Nat) (j : Nat) (hj : j < codes.length),
      (deployEntries cOk sidOf pfx ts now codes i).get
        ⟨j, by rw [deployEntries_length]; exact hj⟩ =
        (if cOk (i + j) then
          (⟨mkStackName pfx (codes.get ⟨j, hj⟩) ts (i + j), sidOf (i + j),
            codes.get ⟨j, hj⟩, CREATE_IN_PROGRESS, now⟩ : DeployedStack)
         else ⟨mkStackName pfx (codes.get ⟨j, hj⟩) ts (i + j), "",
            codes.get ⟨j, hj⟩, CREATE_FAILED, now⟩) := by
  intro codes
  induction codes with
  | nil =>
    intro i j hj
    cases hj
  | cons c rest ih =>
    intro i j hj
    cases j with
    | zero =>
      simp only [deployEntries, List.get, Nat.add_zero]
    | succ k =>
      have hk : k < rest.length := by simpa using hj
      have hidx : i + (k + 1) = (i + 1) + k := by omega
      have := ih (i + 1) k hk
      simp only [deployEntries, List.get, hidx]
      exact this

theorem deployLoop_resp_indep (stackCount : Nat) (cOk : Nat → Bool)
    (pOk uOk pOk' uOk' : Nat → Bool) (sidOf : Nat → String)
    (pfx ts now : String) :
    ∀ (codes : List String) (i succ failed : Nat) (store store' : Store)
      (acc : List DeployedStack),
      (deployLoop stackCount cOk pOk uOk sidOf pfx ts now
        codes i succ failed store acc).deployedStacks =
        (deployLoop stackCount cOk pOk' uOk' sidOf pfx ts now
          codes i succ failed store' acc).deployedStacks ∧
      (deployLoop stackCount cOk pOk uOk sidOf pfx ts now
        codes i succ failed store acc).successful =
        (deployLoop stackCount cOk pOk' uOk' sidOf pfx ts now
          codes i succ failed store' acc).successful ∧
      (deployLoop stackCount cOk pOk uOk sidOf pfx ts now
        codes i succ failed store acc).failed =
        (deployLoop stackCount cOk pOk' uOk' sidOf pfx ts now
          codes i succ failed store' acc).failed ∧
      (deployLoop stackCount cOk pOk uOk sidOf pfx ts now
        codes i succ failed store acc).aborted =
        (deployLoop stackCount cOk pOk' uOk' sidOf pfx ts now
          codes i succ failed store' acc).aborted := by
  intro codes
  induction codes with
  | nil =>
    intro i succ failed store store' acc
    exact ⟨rfl, rfl, rfl, rfl⟩
  | cons c rest ih =>
    intro i succ failed store store' acc
    simp only [deployLoop]
    by_cases h1 : cOk i = true
    · simp only [h1, if_true]
      by_cases h2 : pOk i = true <;> by_cases h2' : pOk' i = true <;>
        simp only [h2, h2', if_true, Bool.false_eq_true, if_false] <;>
        exact ih _ _ _ _ _ _
    · simp only [h1, Bool.false_eq_true, if_false]
      by_cases h3 : stackCount < 2 * (failed + 1)
      · rw [if_pos h3, if_pos h3]
        by_cases h2 : uOk i = true <;> by_cases h2' : uOk' i = true <;>
          simp only [h2, h2', if_true, Bool.false_eq_true, if_false] <;>
          exact ⟨trivial, trivial, trivial, trivial⟩
      · rw [if_neg h3, if_neg h3]
        by_cases h2 : uOk i = true <;> by_cases h2' : uOk' i = true <;>
          simp only [h2, h2', if_true, Bool.false_eq_true, if_false] <;>
          exact ih _ _ _ _ _ _

/-- Claim C2 (Partial-failure containment in allocation): for every batch
whose count passes the range checks and whose assignment succeeds, the
deployment loop records one outcome per assigned id — CREATE_IN_PROGRESS on
external create success, CREATE_FAILED on create failure — and continues
past individual failures; the batch aborts with a DEPLOYMENT_BATCH_FAILED
error carrying total = batch size if and only if the number of create
failures exceeds half the batch size; when no abort occurs the response
lists exactly the per-index outcomes (failCount failures, the rest
in-progress) and every failed id whose failure-path store write succeeds is
persisted back through the deployFailureReset update, which sets status
AVAILABLE and clears stackArn, stackName, stackId and createdAt. -/
theorem allocate_partial_failure (store : Store)
    (stackCount maxPoolSize : Nat) (selected : Option (List String))
    (cOk pOk uOk : Nat → Bool) (sidOf : Nat → String) (pfx ts now : String)
    (assigned : List String)
    (hc : stackCount ≠ 0) (hm : stackCount ≤ maxPoolSize)
    (hassign : assignAccessCodes store stackCount selected = .ok assigned)
    (hnd : assigned.Nodup) :
    ((∃ f, (deployStacks store stackCount selected maxPoolSize cOk pOk uOk
        sidOf pfx ts now).2 = .error (.deploymentBatchFailed f) ∧
        f.total = stackCount ∧ stackCount < 2 * f.failed) ↔
      stackCount < 2 * failCount cOk 0 assigned.length) ∧
    (¬ stackCount < 2 * failCount cOk 0 assigned.length →
      (deployStacks store stackCount selected maxPoolSize cOk pOk uOk
        sidOf pfx ts now).2 =
        .ok (deployEntries cOk sidOf pfx ts now assigned 0, assigned) ∧
      (List.filter (fun e => e.status == CREATE_FAILED)
        (deployEntries cOk sidOf pfx ts now assigned 0)).length =
        failCount cOk 0 assigned.length ∧
      (List.filter (fun e => e.status == CREATE_IN_PROGRESS)
        (deployEntries cOk sidOf pfx ts now assigned 0)).length =
        assigned.length - failCount cOk 0 assigned.length ∧
      ∀ (j : Nat) (hj : j < assigned.length), cOk j = false → uOk j = true →
        getStackRecord (deployStacks store stackCount selected maxPoolSize
          cOk pOk uOk sidOf pfx ts now).1 (assigned.get ⟨j, hj⟩) =
          Option.map (fun r => applyUpdate r deployFailureReset now)
            (getStackRecord store (assigned.get ⟨j, hj⟩))) ∧
    (∀ r : StackRecord,
      (applyUpdate r deployFailureReset now).status = AVAILABLE ∧
      (applyUpdate r deployFailureReset now).stackArn = none ∧
      (applyUpdate r deployFailureReset now).stackName = none ∧
      (applyUpdate r deployFailureReset now).stackId = none ∧
      (applyUpdate r deployFailureReset now).createdAt = none) := by
  obtain ⟨hcase1, hcase2⟩ := deployStacks_cases store stackCount maxPoolSize
    selected cOk pOk uOk sidOf pfx ts now assigned hc hm hassign
  refine ⟨?_, ?_, ?_⟩
  · constructor
    · rintro ⟨f, hres, _, _⟩
      cases hab : (deployLoop stackCount cOk pOk uOk sidOf pfx ts now
          assigned 0 0 0 store []).aborted with
      | none =>
        rw [hcase2 hab] at hres
        simp at hres
      | some f' =>
        have hiso : (deployLoop stackCount cOk pOk uOk sidOf pfx ts now
            assigned 0 0 0 store []).aborted.isSome = true := by
          rw [hab]; rfl
        have := (deployLoop_abort_iff stackCount cOk pOk uOk sidOf pfx ts now
          assigned 0 0 0 store [] (by omega)).mp hiso
        simpa using this
    · intro hlt
      have hiso : (deployLoop stackCount cOk pOk uOk sidOf pfx ts now
          assigned 0 0 0 store []).aborted.isSome = true :=
        (deployLoop_abort_iff stackCount cOk pOk uOk sidOf pfx ts now
          assigned 0 0 0 store [] (by omega)).mpr (by simpa using hlt)
      obtain ⟨f, hf⟩ := Option.isSome_iff_exists.mp hiso
      have htot := deployLoop_abort_total stackCount cOk pOk uOk sidOf pfx
        ts now assigned 0 0 0 store [] f hf
      refine ⟨f, ?_, htot.1, htot.2⟩
      rw [hcase1 f hf]
  · intro hnlt
    have hnone : (deployLoop stackCount cOk pOk uOk sidOf pfx ts now
        assigned 0 0 0 store []).aborted = none := by
      cases hab : (deployLoop stackCount cOk pOk uOk sidOf pfx ts now
          assigned 0 0 0 store []).aborted with
      | none => rfl
      | some f =>
        exfalso
        have hiso : (deployLoop stackCount cOk pOk uOk sidOf pfx ts now
            assigned 0 0 0 store []).aborted.isSome = true := by
          rw [hab]; rfl
        have := (deployLoop_abort_iff stackCount cOk pOk uOk sidOf pfx ts now
          assigned 0 0 0 store [] (by omega)).mp hiso
        exact hnlt (by simpa using this)
    refine ⟨?_, (deployEntries_counts cOk sidOf pfx ts now assigned 0).1,
      (deployEntries_counts cOk sidOf pfx ts now assigned 0).2, ?_⟩
    · rw [hcase2 hnone]
      have := deployLoop_entries stackCount cOk pOk uOk sidOf pfx ts now
        assigned 0 0 0 store [] hnone
      simp only [List.reverse_nil, List.nil_append] at this
      rw [this]
    · intro j hj hcj huj
      rw [hcase2 hnone]
      have hla := deployLoop_lookup_at stackCount cOk pOk uOk sidOf pfx ts
        now assigned 0 0 0 store [] hnd hnone j hj
      simp only [Nat.zero_add] at hla
      dsimp only
      rw [hla, if_neg (by simp [hcj]), if_pos huj]
  · intro r
    exact ⟨rfl, rfl, rfl, rfl, rfl⟩

/-- Witness for the partial-failure theorem: ten codes c0..c9 are assigned,
the creations at ordinals 5..9 (the 6th through 10th) fail, all store
writes succeed; the batch does not abort (five failures do not exceed
half of ten), the response carries exactly 5 CREATE_FAILED and 5
CREATE_IN_PROGRESS outcomes, and a failed id (c7) is persisted back
through the deployFailureReset update. -/
theorem allocate_partial_failure_witness :
    ((10 : Nat) ≠ 0) ∧ ((10 : Nat) ≤ 10) ∧
    assignAccessCodes
      (initAccessCodePool []
        ["c0", "c1", "c2", "c3", "c4", "c5", "c6", "c7", "c8", "c9"] "0")
      10 none =
      .ok ["c0", "c1", "c2", "c3", "c4", "c5", "c6", "c7", "c8", "c9"] ∧
    (["c0", "c1", "c2", "c3", "c4", "c5", "c6", "c7", "c8", "c9"] :
      List String).Nodup ∧
    ¬ (10 : Nat) < 2 * failCount (fun i => decide (i < 5)) 0 10 ∧
    (deployStacks
      (initAccessCodePool []
        ["c0", "c1", "c2", "c3", "c4", "c5", "c6", "c7", "c8", "c9"] "0")
      10 none 10 (fun i => decide (i < 5)) (fun _ => true) (fun _ => true)
      (fun _ => "sid") "p" "t" "n").2 =
      .ok (deployEntries (fun i => decide (i < 5)) (fun _ => "sid")
        "p" "t" "n" ["c0", "c1", "c2", "c3", "c4", "c5", "c6", "c7", "c8", "c9"] 0,
        ["c0", "c1", "c2", "c3", "c4", "c5", "c6", "c7", "c8", "c9"]) ∧
    (List.filter (fun e => e.status == CREATE_FAILED)
      (deployEntries (fun i => decide (i < 5)) (fun _ => "sid") "p" "t" "n"
        ["c0", "c1", "c2", "c3", "c4", "c5", "c6", "c7", "c8", "c9"] 0)).length = 5 ∧
    (List.filter (fun e => e.status == CREATE_IN_PROGRESS)
      (deployEntries (fun i => decide (i < 5)) (fun _ => "sid") "p" "t" "n"
        ["c0", "c1", "c2", "c3", "c4", "c5", "c6", "c7", "c8", "c9"] 0)).length = 5 ∧
    getStackRecord
      (deployStacks
        (initAccessCodePool []
          ["c0", "c1", "c2", "c3", "c4", "c5", "c6", "c7", "c8", "c9"] "0")
        10 none 10 (fun i => decide (i < 5)) (fun _ => true) (fun _ => true)
        (fun _ => "sid") "p" "t" "n").1 "c7" =
      Option.map (fun r => applyUpdate r deployFailureReset "n")
        (getStackRecord
          (initAccessCodePool []
            ["c0", "c1", "c2", "c3", "c4", "c5", "c6", "c7", "c8", "c9"] "0")
          "c7") := by
  have h := allocate_partial_failure
    (initAccessCodePool []
      ["c0", "c1", "c2", "c3", "c4", "c5", "c6", "c7", "c8", "c9"] "0")
    10 10 none (fun i => decide (i < 5)) (fun _ => true) (fun _ => true)
    (fun _ => "sid") "p" "t" "n"
    ["c0", "c1", "c2", "c3", "c4", "c5", "c6", "c7", "c8", "c9"]
    (by decide) (by decide) (by rfl) (by decide)
  have hnl : ¬ (10 : Nat) < 2 * failCount (fun i => decide (i < 5)) 0 10 := by
    decide
  obtain ⟨-, h2, -⟩ := h
  obtain ⟨hresp, hfail, hsucc, hper⟩ := h2 (by simpa using hnl)
  refine ⟨by decide, by decide, by rfl, by decide, hnl, hresp,
    ?_, ?_, ?_⟩
  · exact hfail.trans (by decide)
  · exact hsucc.trans (by decide)
  · simpa using hper 7 (by decide) (by decide) (by decide)

/-- Claim C10 (implicit — store writes after a successful external call are
advisory): the response of the allocation batch is the same function of the
store and the external-create oracle whatever the put/update write oracles
are — a put failure after a successful create still reports that id as a
successful CREATE_IN_PROGRESS outcome — and the response of DeleteOne is
the same whatever the follow-up write oracle is — a store-write failure
after a successful DeleteStackCommand still returns success. A store-write
error never changes the operation's reported outcome. -/
theorem advisory_store_writes :
    (∀ (store : Store) (stackCount maxPoolSize : Nat)
      (selected : Option (List String)) (cOk pOk uOk pOk' uOk' : Nat → Bool)
      (sidOf : Nat → String) (pfx ts now : String),
      (deployStacks store stackCount selected maxPoolSize cOk pOk uOk
        sidOf pfx ts now).2 =
      (deployStacks store stackCount selected maxPoolSize cOk pOk' uOk'
        sidOf pfx ts now).2) ∧
    (∀ (store : Store) (accessCode : String) (formatOk deleteOk uOk uOk' : Bool)
      (now : String),
      (deleteStackByAccessCode store accessCode formatOk deleteOk uOk now).2 =
      (deleteStackByAccessCode store accessCode formatOk deleteOk uOk' now).2) := by
  constructor
  · intro store stackCount maxPoolSize selected cOk pOk uOk pOk' uOk'
      sidOf pfx ts now
    unfold deployStacks
    by_cases h0 : (stackCount == 0) = true
    · rw [if_pos h0, if_pos h0]
    · rw [if_neg h0, if_neg h0]
      by_cases h1 : maxPoolSize < stackCount
      · rw [if_pos h1, if_pos h1]
      · rw [if_neg h1, if_neg h1]
        cases hassign : assignAccessCodes store stackCount selected with
        | error e => rfl
        | ok assigned =>
          dsimp only
          obtain ⟨hds, -, -, hav⟩ := deployLoop_resp_indep stackCount cOk
            pOk uOk pOk' uOk' sidOf pfx ts now assigned 0 0 0 store store []
          rw [hav]
          cases hab : (deployLoop stackCount cOk pOk' uOk' sidOf pfx ts now
              assigned 0 0 0 store []).aborted with
          | some f => rfl
          | none =>
            dsimp only
            rw [hds]
  · intro store accessCode formatOk deleteOk uOk uOk' now
    unfold deleteStackByAccessCode
    cases hfind : findStackByAccessCode store accessCode formatOk with
    | error e => rfl
    | ok info =>
      cases info with
      | none => rfl
      | some stack =>
        dsimp only
        by_cases h1 : (stack.status == DELETE_IN_PROGRESS) = true
        · rw [if_pos h1, if_pos h1]
        · rw [if_neg h1, if_neg h1]
          by_cases h2 : (List.contains inProgressStates stack.status) = true
          · rw [if_pos h2, if_pos h2]
          · rw [if_neg h2, if_neg h2]
            by_cases h3 : deleteOk = true
            · rw [if_pos h3, if_pos h3]
            · rw [if_neg h3, if_neg h3]

/-! ## Lemmas for the reset-to-AVAILABLE only-path argument -/

theorem getStackRecord_of_mem {pool : List String} {store : Store}
    (hinv : StoreInv pool store) {r : StackRecord} (hr : r ∈ store) :
    getStackRecord store r.guid = some r := by
  cases hfind : getStackRecord store r.guid with
  | none =>
    exfalso
    exact absurd (by simp : (r.guid == r.guid) = true)
      (by simpa using List.find?_eq_none.mp hfind r hr)
  | some x =>
    have hxmem : x ∈ store := mem_of_getStackRecord hfind
    have hxg : x.guid = r.guid := guid_of_getStackRecord hfind
    rw [record_unique hinv hxmem hr hxg]

theorem deleteAllLoop_no_avail (dOk uOk : String → Bool) (now : String) :
    ∀ (infos : List StackInfo) (store : Store)
      (acc : List (String × BulkOutcome)) (g : String) (r' : StackRecord),
      getStackRecord (deleteAllLoop dOk uOk now infos store acc).1 g = some r' →
      r'.status = AVAILABLE →
      ∃ r0, getStackRecord store g = some r0 ∧ r0.status = AVAILABLE := by
  intro infos
  induction infos with
  | nil =>
    intro store acc g r' hres hav
    exact ⟨r', hres, hav⟩
  | cons info rest ih =>
    intro store acc g r' hres hav
    simp only [deleteAllLoop] at hres
    by_cases h1 : (info.status == DELETE_IN_PROGRESS) = true
    · rw [if_pos h1] at hres
      exact ih store _ g r' hres hav
    · rw [if_neg (by simp [h1])] at hres
      by_cases h2 : List.contains inProgressStates info.status = true
      · rw [if_pos h2] at hres
        exact ih store _ g r' hres hav
      · rw [if_neg h2] at hres
        by_cases h3 : dOk info.uniqueId = true
        · rw [if_pos h3] at hres
          by_cases h4 : uOk info.uniqueId = true
          · simp only [h4, if_true] at hres
            rcases ih _ _ g r' hres hav with ⟨r0, hr0, hav0⟩
            by_cases hg : info.uniqueId = g
            · subst hg
              rw [getStackRecord_update_self] at hr0
              cases hbase : getStackRecord store info.uniqueId with
              | none =>
                rw [hbase] at hr0
                simp at hr0
              | some r1 =>
                rw [hbase] at hr0
                exfalso
                have hinj : applyUpdate r1 deleteInProgressUpdate now = r0 := by
                  simpa using hr0
                have : r0.status = DELETE_IN_PROGRESS := by
                  rw [← hinj]
                  rfl
                rw [this] at hav0
                cases hav0
            · rw [getStackRecord_update_ne _ _ _ _ _ hg] at hr0
              exact ⟨r0, hr0, hav0⟩
          · simp only [h4, Bool.false_eq_true, if_false] at hres
            exact ih store _ g r' hres hav
        · rw [if_neg h3] at hres
          exact ih store _ g r' hres hav

theorem deploy_untouched {pool : List String} {store : Store}
    (hinv : StoreInv pool store) {r : StackRecord} (hr : r ∈ store)
    (hna : r.status ≠ AVAILABLE) (stackCount maxPoolSize : Nat)
    (selected : Option (List String)) (cOk pOk uOk : Nat → Bool)
    (sidOf : Nat → String) (pfx ts now : String) :
    getStackRecord (deployStacks store stackCount selected maxPoolSize
      cOk pOk uOk sidOf pfx ts now).1 r.guid = getStackRecord store r.guid := by
  unfold deployStacks
  by_cases h0 : (stackCount == 0) = true
  · rw [if_pos h0]
  · rw [if_neg h0]
    by_cases h1 : maxPoolSize < stackCount
    · rw [if_pos h1]
    · rw [if_neg h1]
      cases hassign : assignAccessCodes store stackCount selected with
      | error e => rfl
      | ok assigned =>
        dsimp only
        have hnotin : r.guid ∉ assigned := by
          intro hmem
          have hav := (assign_ok_spec hassign).1 r.guid hmem
          rcases available_record hav with ⟨r2, hr2, hg2, hav2⟩
          have : r2 = r := record_unique hinv hr2 hr hg2
          rw [this] at hav2
          exact hna hav2
        have hlook := deployLoop_lookup_not_mem stackCount cOk pOk uOk sidOf
          pfx ts now assigned 0 0 0 store [] r.guid hnotin
        cases hab : (deployLoop stackCount cOk pOk uOk sidOf pfx ts now
            assigned 0 0 0 store []).aborted with
        | some f =>
          dsimp only
          exact hlook
        | none =>
          dsimp only
          exact hlook

theorem deleteOne_no_avail {store : Store} (accessCode : String)
    (formatOk deleteOk updateOk : Bool) (now : String) (g : String)
    (r' : StackRecord)
    (hres : getStackRecord (deleteStackByAccessCode store accessCode formatOk
      deleteOk updateOk now).1 g = some r')
    (hav : r'.status = AVAILABLE) :
    ∃ r0, getStackRecord store g = some r0 ∧ r0.status = AVAILABLE := by
  unfold deleteStackByAccessCode at hres
  cases hfind : findStackByAccessCode store accessCode formatOk with
  | error e =>
    rw [hfind] at hres
    exact ⟨r', hres, hav⟩
  | ok info =>
    rw [hfind] at hres
    cases info with
    | none => exact ⟨r', hres, hav⟩
    | some stack =>
      dsimp only at hres
      by_cases h1 : (stack.status == DELETE_IN_PROGRESS) = true
      · rw [if_pos h1] at hres
        exact ⟨r', hres, hav⟩
      · rw [if_neg (by simp [h1])] at hres
        by_cases h2 : List.contains inProgressStates stack.status = true
        · rw [if_pos h2] at hres
          exact ⟨r', hres, hav⟩
        · rw [if_neg h2] at hres
          by_cases h3 : deleteOk = true
          · rw [if_pos h3] at hres
            dsimp only at hres
            by_cases h4 : updateOk = true
            · rw [if_pos h4] at hres
              by_cases hg : accessCode = g
              · subst hg
                rw [getStackRecord_update_self] at hres
                cases hbase : getStackRecord store accessCode with
                | none =>
                  rw [hbase] at hres
                  simp at hres
                | some r1 =>
                  rw [hbase] at hres
                  exfalso
                  have hinj : applyUpdate r1 deleteInProgressUpdate now = r' := by
                    simpa using hres
                  have : r'.status = DELETE_IN_PROGRESS := by
                    rw [← hinj]
                    rfl
                  rw [this] at hav
                  cases hav
              · rw [getStackRecord_update_ne _ _ _ _ _ hg] at hres
                exact ⟨r', hres, hav⟩
            · rw [if_neg h4] at hres
              exact ⟨r', hres, hav⟩
          · rw [if_neg h3] at hres
            exact ⟨r', hres, hav⟩

theorem syncAllStacks_store_cases (store : Store)
    (view : String → DescribeResult) (now : String) (rule : RuleState)
    (env : TriggerEnv) (refetchOk : Bool) :
    (syncAllStacks store view now rule env refetchOk).store = store ∧
      (getNonAvailableStackRecords store).length = 0 ∨
    (syncAllStacks store view now rule env refetchOk).store =
      syncStorePass store view now := by
  unfold syncAllStacks
  by_cases h0 : ((getNonAvailableStackRecords store).length == 0) = true
  · rw [if_pos h0]
    left
    constructor
    · by_cases h1 : (refetchOk &&
          ((getNonAvailableStackRecords store).length == 0)) = true
      · rw [if_pos h1]
      · rw [if_neg h1]
    · simpa using h0
  · rw [if_neg (by simpa using h0)]
    right
    by_cases h1 : (refetchOk &&
        ((getNonAvailableStackRecords
          (syncStorePass store view now)).length == 0)) = true
    · rw [if_pos h1]
    · rw [if_neg h1]

/-- Claim C5: Reconciliation reset-to-AVAILABLE. For every non-AVAILABLE
record with a stackArn, when the describe reports the stack missing, or
reports the terminal DELETE_COMPLETE status, syncStackRecord resets the
record to status AVAILABLE with stackArn, stackName, stackId, outputs and
createdAt cleared and syncError cleared, and the sync succeeds; and this
reset is the only path by which a linked record returns to AVAILABLE:
whenever any single operation of the state machine (deploy, delete-one,
delete-all, reconcile with status-sane describes) takes a well-formed store
whose record under some code is non-AVAILABLE to a store whose record
under that code is AVAILABLE, the operation is a reconcile whose view of
that code is notFound or found DELETE_COMPLETE. -/
theorem reconcile_reset_only_path (r : StackRecord) (now : String)
    (hna : r.status ≠ AVAILABLE) (harn : r.stackArn.isSome = true) :
    ((syncStackRecord r .notFound now).1 =
      { guid := r.guid, stackArn := none, stackName := none, stackId := none,
        status := AVAILABLE, createdAt := none, updatedAt := now,
        outputs := none, lastSyncAt := some now, syncError := none } ∧
     (syncStackRecord r .notFound now).2 = true ∧
     ∀ nm sid ct os,
       (syncStackRecord r (.found DELETE_COMPLETE nm sid ct os) now).1 =
         { guid := r.guid, stackArn := none, stackName := none,
           stackId := none, status := AVAILABLE, createdAt := none,
           updatedAt := now, outputs := none, lastSyncAt := some now,
           syncError := none } ∧
       (syncStackRecord r (.found DELETE_COMPLETE nm sid ct os) now).2 = true) ∧
    (∀ (pool : List String) (store : Store) (op : Op), OpOk op →
      StoreInv pool store → r ∈ store →
      ∀ r', getStackRecord (execOp op store) r.guid = some r' →
        r'.status = AVAILABLE →
        ∃ view now' rule env refetchOk,
          op = .reconcile view now' rule env refetchOk ∧
          (view r.guid = .notFound ∨
            ∃ nm sid ct os, view r.guid = .found DELETE_COMPLETE nm sid ct os)) := by
  have hb : (r.status == AVAILABLE) = false := by simpa using hna
  constructor
  · cases harn2 : r.stackArn with
    | none =>
      rw [harn2] at harn
      cases harn
    | some a =>
      refine ⟨?_, ?_, ?_⟩
      · unfold syncStackRecord
        rw [harn2]
        dsimp only
        rw [if_pos (by simp [hb])]
        rfl
      · unfold syncStackRecord
        rw [harn2]
        dsimp only
        rw [if_pos (by simp [hb])]
      · intro nm sid ct os
        constructor
        · unfold syncStackRecord
          rw [harn2]
          dsimp only
          rw [if_pos (by decide)]
          rfl
        · unfold syncStackRecord
          rw [harn2]
          dsimp only
          rw [if_pos (by decide)]
  · intro pool store op hok hinv hr r' hres hav
    cases op with
    | deploy stackCount selected maxPoolSize cOk pOk uOk sidOf pfx ts now' =>
      exfalso
      unfold execOp at hres
      rw [deploy_untouched hinv hr hna stackCount maxPoolSize selected
        cOk pOk uOk sidOf pfx ts now', getStackRecord_of_mem hinv hr] at hres
      have hrr : r = r' := by simpa using hres
      rw [← hrr] at hav
      exact hna hav
    | deleteOne accessCode formatOk deleteOk updateOk now' =>
      exfalso
      unfold execOp at hres
      rcases deleteOne_no_avail accessCode formatOk deleteOk updateOk now'
        r.guid r' hres hav with ⟨r0, hr0, hav0⟩
      rw [getStackRecord_of_mem hinv hr] at hr0
      have hrr : r = r0 := by simpa using hr0
      rw [← hrr] at hav0
      exact hna hav0
    | deleteAll dOkOf uOkOf now' =>
      exfalso
      unfold execOp deleteAllStacks at hres
      rcases deleteAllLoop_no_avail dOkOf uOkOf now' (getAllActiveStacks store)
        store [] r.guid r' hres hav with ⟨r0, hr0, hav0⟩
      rw [getStackRecord_of_mem hinv hr] at hr0
      have hrr : r = r0 := by simpa using hr0
      rw [← hrr] at hav0
      exact hna hav0
    | reconcile view now' rule env refetchOk =>
      refine ⟨view, now', rule, env, refetchOk, rfl, ?_⟩
      unfold execOp at hres
      dsimp only at hres
      rcases syncAllStacks_store_cases store view now' rule env refetchOk with
        ⟨heq, hzero⟩ | heq
      · exfalso
        have hrne : r ∈ getNonAvailableStackRecords store := by
          unfold getNonAvailableStackRecords getAllStackRecords
          exact List.mem_filter.mpr ⟨hr, by simpa using hna⟩
        rw [List.length_eq_zero] at hzero
        rw [hzero] at hrne
        cases hrne
      · rw [heq] at hres
        unfold syncStorePass at hres
        have hguid : ∀ x : StackRecord,
            ((fun r0 => if r0.status == AVAILABLE then r0
              else (syncStackRecord r0 (view r0.guid) now').1) x).guid =
              x.guid := by
          intro x
          by_cases hx : (x.status == AVAILABLE) = true
          · simp [hx]
          · simp only [hx, Bool.false_eq_true, if_false]
            exact syncStackRecord_guid x (view x.guid) now'
        rw [getStackRecord_map _ hguid, getStackRecord_of_mem hinv hr] at hres
        have hfr : (if (r.status == AVAILABLE) = true then r
            else (syncStackRecord r (view r.guid) now').1) = r' := by
          simpa using hres
        rw [if_neg (by simp [hb])] at hfr
        have hd : describeStatusOk (view r.guid) := hok r.guid
        have hsav : ((syncStackRecord r (view r.guid) now').1).status =
            AVAILABLE := by
          rw [hfr]
          exact hav
        exact syncStackRecord_made_available r (view r.guid) now' hd hna hsav

/-- Witness for the reset/only-path theorem: a linked CREATE_COMPLETE
record with a stale syncError is reset by a notFound describe to a fully
cleared AVAILABLE record, and a concrete reconcile operation that turns
that record AVAILABLE is recognised as a reconcile whose view reports
notFound. -/
theorem reconcile_reset_only_path_witness :
    (syncStackRecord
      { guid := "a", stackArn := some "arn", stackName := some "n",
        stackId := some "i", status := CREATE_COMPLETE, createdAt := some "c",
        updatedAt := "t0", outputs := none, lastSyncAt := none,
        syncError := some "boom" } .notFound "t1").1 =
      { guid := "a", stackArn := none, stackName := none, stackId := none,
        status := AVAILABLE, createdAt := none, updatedAt := "t1",
        outputs := none, lastSyncAt := some "t1", syncError := none } ∧
    (∃ view now' rule env refetchOk,
      (Op.reconcile (fun _ => DescribeResult.notFound) "t1"
        RuleState.DISABLED ⟨true, true⟩ true) =
        Op.reconcile view now' rule env refetchOk ∧
      (view "a" = .notFound ∨
        ∃ nm sid ct os, view "a" = .found DELETE_COMPLETE nm sid ct os)) := by
  have h := reconcile_reset_only_path
    { guid := "a", stackArn := some "arn", stackName := some "n",
      stackId := some "i", status := CREATE_COMPLETE, createdAt := some "c",
      updatedAt := "t0", outputs := none, lastSyncAt := none,
      syncError := some "boom" } "t1" (by decide) (by rfl)
  refine ⟨h.1.1, ?_⟩
  exact h.2 ["a"]
    [{ guid := "a", stackArn := some "arn", stackName := some "n",
       stackId := some "i", status := CREATE_COMPLETE, createdAt := some "c",
       updatedAt := "t0", outputs := none, lastSyncAt := none,
       syncError := some "boom" }]
    (.reconcile (fun _ => DescribeResult.notFound) "t1" RuleState.DISABLED
      ⟨true, true⟩ true)
    (by intro g; trivial)
    ⟨rfl, by decide, by
      intro x hx
      rcases List.mem_singleton.mp hx with h'
      rw [h']
      right
      rfl⟩
    (by simp)
    { guid := "a", stackArn := none, stackName := none, stackId := none,
      status := AVAILABLE, createdAt := none, updatedAt := "t1",
      outputs := none, lastSyncAt := some "t1", syncError := none }
    (by rfl) (by rfl)

end Portal
